import Mathlib

/-!
# Verification of the ray-tracer's core against its specification

A shallow embedding of the ray tracer (spheres, triangles, AABB slab tests,
BVH traversal, the path-tracing integrator, the distributed worker/controller
protocol) over an abstract linear ordered field `α`.  Exact field arithmetic
stands in for `f32`; the hardware square root is passed in as an explicit
function argument `sqrt : α → α` wherever the source calls `f32::sqrt`
(directly or through `length`/`normalize`).  Instantiating `α := ℚ` makes
every definition evaluable by `decide`; instantiating `α := ℝ` and
`sqrt := Real.sqrt` recovers the idealised real-number semantics.
-/

namespace RayTracer

variable {α : Type} [LinearOrderedField α]

/-- 3-component vector, the embedding of `bvh::Vector3` / `bvh::Point3`
(`glam::Vec3A` in the source). -/
structure Vec3 (α : Type) where
  x : α
  y : α
  z : α
deriving DecidableEq, Repr

namespace Vec3

/-- Componentwise addition. -/
def add (a b : Vec3 α) : Vec3 α := ⟨a.x + b.x, a.y + b.y, a.z + b.z⟩

/-- Componentwise subtraction. -/
def sub (a b : Vec3 α) : Vec3 α := ⟨a.x - b.x, a.y - b.y, a.z - b.z⟩

/-- Scalar multiplication `s * v`. -/
def smul (s : α) (v : Vec3 α) : Vec3 α := ⟨s * v.x, s * v.y, s * v.z⟩

instance : Add (Vec3 α) := ⟨add⟩
instance : Sub (Vec3 α) := ⟨sub⟩

/-- Dot product (`Vec3A::dot`). -/
def dot (a b : Vec3 α) : α := a.x * b.x + a.y * b.y + a.z * b.z

/-- Cross product (`Vec3A::cross`). -/
def cross (a b : Vec3 α) : Vec3 α :=
  ⟨a.y * b.z - a.z * b.y, a.z * b.x - a.x * b.z, a.x * b.y - a.y * b.x⟩

/-- Squared euclidean length (`Vec3A::length_squared`). -/
def lengthSq (v : Vec3 α) : α := v.x * v.x + v.y * v.y + v.z * v.z

/-- Euclidean length (`Vec3A::length`), `sqrt` of the squared length; the
hardware square root is the explicit argument `sqrt`. -/
def length (sqrt : α → α) (v : Vec3 α) : α := sqrt (lengthSq v)

/-- The zero vector (`Vec3A::ZERO`). -/
def zero : Vec3 α := ⟨0, 0, 0⟩

/-- `Vec3A::normalize`: `v` scaled by the reciprocal of its length. -/
def normalize (sqrt : α → α) (v : Vec3 α) : Vec3 α :=
  smul (1 / length sqrt v) v

/-- `Vec3A::normalize_or_zero`: the normalized vector, or zero when the
length is zero (glam tests that the reciprocal length is finite and
nonzero; in exact arithmetic that is `lengthSq v ≠ 0`). -/
def normalizeOrZero (sqrt : α → α) (v : Vec3 α) : Vec3 α :=
  if lengthSq v = 0 then zero else normalize sqrt v

/-- `Vec3A::try_normalize`: `some` of the normalized vector, or `none` when
the length is zero. -/
def tryNormalize (sqrt : α → α) (v : Vec3 α) : Option (Vec3 α) :=
  if lengthSq v = 0 then none else some (normalize sqrt v)

end Vec3

/-- RGB color with field-valued channels, the embedding of `Color` from
`src/src/color.rs`. -/
structure Color (α : Type) where
  r : α
  g : α
  b : α
deriving DecidableEq, Repr

namespace Color

/-- `impl Add for Color`: componentwise addition. -/
def add (a b : Color α) : Color α := ⟨a.r + b.r, a.g + b.g, a.b + b.b⟩

/-- `impl Mul<f32> for Color` (and the symmetric `f32 * Color`):
channelwise scaling. -/
def scale (s : α) (c : Color α) : Color α := ⟨c.r * s, c.g * s, c.b * s⟩

/-- `Color::blend`: componentwise (Hadamard) product. -/
def blend (a b : Color α) : Color α := ⟨a.r * b.r, a.g * b.g, a.b * b.b⟩

/-- `color::BLACK`. -/
def black : Color α := ⟨0, 0, 0⟩

/-- `color::WHITE`. -/
def white : Color α := ⟨1, 1, 1⟩

end Color

/-- The saturating `as u8` cast Rust applies to an `f32`: truncate toward
zero, clamp into `[0, 255]` (negative values, including every value that
truncates below zero, give `0`; values at or above `255` give `255`).
For nonnegative inputs truncation toward zero is `Int.floor`. -/
def rustCastU8 [FloorRing α] (q : α) : ℕ := (min 255 ⌊q⌋).toNat

/-- `Color::as_slice` from `src/src/color.rs`: each channel is scaled by
`255.999` and cast `as u8` (the literal `255.999` is read as the rational
`255999/1000`). -/
def Color.asSlice [FloorRing α] (c : Color α) : List ℕ :=
  [rustCastU8 (c.r * (255999 / 1000)),
   rustCastU8 (c.g * (255999 / 1000)),
   rustCastU8 (c.b * (255999 / 1000))]

/-- Axis-aligned bounding box.
Modelled from the spec: the `AABB` struct of the vendored bvh crate
(`local-dependencies/bvh/src/aabb.rs` is not present in the sources) is,
per the spec's data model, a pair of corner points `min`/`max`; its `Index`
implementation used by `Ray::intersects_aabb` maps index `0` to `min` and
index `1` to `max`. -/
structure AABB (α : Type) where
  min : Vec3 α
  max : Vec3 α
deriving DecidableEq, Repr

/-- Indexing of an `AABB` by a sign bit: `aabb[0] = min`, `aabb[1] = max`
(the bvh crate's `Index<usize> for AABB`). -/
def AABB.idx (b : AABB α) (i : ℕ) : Vec3 α := if i = 0 then b.min else b.max

/-- `AABB::with_bounds`. -/
def AABB.withBounds (lo hi : Vec3 α) : AABB α := ⟨lo, hi⟩

/-- A point lies (weakly) inside a box, componentwise. -/
def AABB.containsPt (b : AABB α) (p : Vec3 α) : Prop :=
  b.min.x ≤ p.x ∧ p.x ≤ b.max.x ∧
  b.min.y ≤ p.y ∧ p.y ≤ b.max.y ∧
  b.min.z ≤ p.z ∧ p.z ≤ b.max.z

instance (b : AABB α) (p : Vec3 α) : Decidable (b.containsPt p) := by
  unfold AABB.containsPt; infer_instance

/-- Box `b₁` lies inside box `b₂`, corner-wise (the containment used by the
spec's BVH invariant "every node's box contains the union of its children's
boxes (or its primitives' boxes)"). -/
def AABB.subset (b₁ b₂ : AABB α) : Prop :=
  b₂.min.x ≤ b₁.min.x ∧ b₁.max.x ≤ b₂.max.x ∧
  b₂.min.y ≤ b₁.min.y ∧ b₁.max.y ≤ b₂.max.y ∧
  b₂.min.z ≤ b₁.min.z ∧ b₁.max.z ≤ b₂.max.z

instance (b₁ b₂ : AABB α) : Decidable (b₁.subset b₂) := by
  unfold AABB.subset; infer_instance

/-- The embedding of `bvh::ray::Ray`: origin, direction, and the cached
inverse direction and per-axis sign bits. -/
structure Ray (α : Type) where
  origin : Vec3 α
  direction : Vec3 α
  invDirection : Vec3 α
  signX : ℕ
  signY : ℕ
  signZ : ℕ
deriving DecidableEq, Repr

/-- The cache-filling part of `Ray::new`: given the (already normalized)
direction, store the componentwise reciprocal and the sign bits
(`(direction.c < 0.0) as usize`).  `Ray::new` first normalizes the incoming
direction — a square-root-dependent positive rescale — so the embedding
quantifies over the post-normalization direction and builds the caches
exactly as the constructor does. -/
def Ray.mk' (origin direction : Vec3 α) : Ray α :=
  { origin := origin
    direction := direction
    invDirection := ⟨1 / direction.x, 1 / direction.y, 1 / direction.z⟩
    signX := if direction.x < 0 then 1 else 0
    signY := if direction.y < 0 then 1 else 0
    signZ := if direction.z < 0 then 1 else 0 }

/-- `Ray::new` including the normalization of the direction. -/
def Ray.new (sqrt : α → α) (origin direction : Vec3 α) : Ray α :=
  Ray.mk' origin (direction.normalize sqrt)

/-- `Ray::at`: the point at parameter `t` along the ray. -/
def Ray.at (r : Ray α) (t : α) : Vec3 α := r.origin + Vec3.smul t r.direction

/-- The free function `min` of `bvh/src/ray.rs`: `if x < y { x } else { y }`. -/
def fmin (x y : α) : α := if x < y then x else y

/-- The free function `max` of `bvh/src/ray.rs`: `if x > y { x } else { y }`. -/
def fmax (x y : α) : α := if x > y then x else y

/-- `Ray::intersects_aabb`: the sign-indexed slab test from
`bvh/src/ray.rs` lines 174-194. -/
def Ray.intersectsAabb (r : Ray α) (aabb : AABB α) : Bool :=
  let rayMin0 := ((aabb.idx r.signX).x - r.origin.x) * r.invDirection.x
  let rayMax0 := ((aabb.idx (1 - r.signX)).x - r.origin.x) * r.invDirection.x
  let yMin := ((aabb.idx r.signY).y - r.origin.y) * r.invDirection.y
  let yMax := ((aabb.idx (1 - r.signY)).y - r.origin.y) * r.invDirection.y
  let rayMin1 := fmax rayMin0 yMin
  let rayMax1 := fmin rayMax0 yMax
  let zMin := ((aabb.idx r.signZ).z - r.origin.z) * r.invDirection.z
  let zMax := ((aabb.idx (1 - r.signZ)).z - r.origin.z) * r.invDirection.z
  let rayMin2 := fmax rayMin1 zMin
  let rayMax2 := fmin rayMax1 zMax
  decide (fmax rayMin2 0 ≤ rayMax2)

/-- `Ray::intersects_aabb_naive`: the per-axis min/max test from
`bvh/src/ray.rs` lines 218-239 (`f32::min`/`f32::max` methods are ordinary
`min`/`max` over an exact field). -/
def Ray.intersectsAabbNaive (r : Ray α) (aabb : AABB α) : Bool :=
  let hitMinX := (aabb.min.x - r.origin.x) * r.invDirection.x
  let hitMaxX := (aabb.max.x - r.origin.x) * r.invDirection.x
  let hitMinY := (aabb.min.y - r.origin.y) * r.invDirection.y
  let hitMaxY := (aabb.max.y - r.origin.y) * r.invDirection.y
  let hitMinZ := (aabb.min.z - r.origin.z) * r.invDirection.z
  let hitMaxZ := (aabb.max.z - r.origin.z) * r.invDirection.z
  let xEntry := min hitMinX hitMaxX
  let yEntry := min hitMinY hitMaxY
  let zEntry := min hitMinZ hitMaxZ
  let xExit := max hitMinX hitMaxX
  let yExit := max hitMinY hitMaxY
  let zExit := max hitMinZ hitMaxZ
  let latestEntry := max (max xEntry yEntry) zEntry
  let earliestExit := min (min xExit yExit) zExit
  decide (latestEntry < earliestExit ∧ 0 < earliestExit)

/-- `Ray::intersects_aabb_branchless`: the tmin/tmax accumulation test from
`bvh/src/ray.rs` lines 263-286.  The initial `tmax = f32::INFINITY` has no
counterpart in an exact ordered field, so the embedding takes a stand-in
`inf : α`; theorems assume it dominates the six per-axis products, which is
exactly how `INFINITY` behaves for finite slab values. -/
def Ray.intersectsAabbBranchless (inf : α) (r : Ray α) (aabb : AABB α) : Bool :=
  let tmin0 : α := 0
  let tmax0 : α := inf
  let tx1 := (aabb.min.x - r.origin.x) * r.invDirection.x
  let tx2 := (aabb.max.x - r.origin.x) * r.invDirection.x
  let tmin1 := fmin (fmax tx1 tmin0) (fmax tx2 tmin0)
  let tmax1 := fmax (fmin tx1 tmax0) (fmin tx2 tmax0)
  let ty1 := (aabb.min.y - r.origin.y) * r.invDirection.y
  let ty2 := (aabb.max.y - r.origin.y) * r.invDirection.y
  let tmin2 := fmin (fmax ty1 tmin1) (fmax ty2 tmin1)
  let tmax2 := fmax (fmin ty1 tmax1) (fmin ty2 tmax1)
  let tz1 := (aabb.min.z - r.origin.z) * r.invDirection.z
  let tz2 := (aabb.max.z - r.origin.z) * r.invDirection.z
  let tmin3 := fmin (fmax tz1 tmin2) (fmax tz2 tmin2)
  let tmax3 := fmax (fmin tz1 tmax2) (fmin tz2 tmax2)
  decide (tmin3 ≤ tmax3)

/-- The six per-axis slab products `(corner - origin) * inv_direction` a
ray/box pair feeds into the three AABB tests. -/
def slabProducts (r : Ray α) (aabb : AABB α) : List α :=
  [(aabb.min.x - r.origin.x) * r.invDirection.x,
   (aabb.max.x - r.origin.x) * r.invDirection.x,
   (aabb.min.y - r.origin.y) * r.invDirection.y,
   (aabb.max.y - r.origin.y) * r.invDirection.y,
   (aabb.min.z - r.origin.z) * r.invDirection.z,
   (aabb.max.z - r.origin.z) * r.invDirection.z]

/-- The result struct of `Ray::intersects_triangle`: distance plus the
barycentric `u`, `v` of the hit. -/
structure Intersection (α : Type) where
  distance : α
  u : α
  v : α
deriving DecidableEq, Repr

/-- `Ray::intersects_triangle` (Möller–Trumbore) from `bvh/src/ray.rs`
lines 295-346.  A missing intersection is reported with
`distance = INFINITY`; the sentinel is the explicit `inf` argument. -/
def Ray.intersectsTriangle (inf : α) (r : Ray α) (a b c : Vec3 α) :
    Intersection α :=
  let aToB := b - a
  let aToC := c - a
  let uVec := r.direction.cross aToC
  let det := aToB.dot uVec
  -- EPSILON of the bvh crate: 0.00001, read as the rational 1/100000
  if det < 1 / 100000 then ⟨inf, 0, 0⟩
  else
    let invDet := 1 / det
    let aToOrigin := r.origin - a
    let u := aToOrigin.dot uVec * invDet
    if ¬(0 ≤ u ∧ u ≤ 1) then ⟨inf, u, 0⟩
    else
      let vVec := aToOrigin.cross aToB
      let v := r.direction.dot vVec * invDet
      if v < 0 ∨ u + v > 1 then ⟨inf, u, v⟩
      else
        let dist := aToC.dot vVec * invDet
        if dist > 1 / 100000 then ⟨dist, u, v⟩ else ⟨inf, u, v⟩

/-- The `Roots` enum of the external `roots` crate: zero to four real roots
in ascending order. -/
inductive Roots (α : Type) where
  | no : Roots α
  | one : α → Roots α
  | two : α → α → Roots α
  | three : α → α → α → Roots α
  | four : α → α → α → α → Roots α
deriving DecidableEq, Repr

/-- `roots::find_roots_quadratic`.
Modelled from the spec: the solver is an external crate; the spec reads
"solve the quadratic `|O + tD − C|² = r²`; of up to two real roots, select
the smallest root lying in `[T_MIN, T_MAX]`", so the model returns no root
for a negative discriminant, the double root for a zero discriminant, and
the two real roots in ascending order otherwise (degrading to the linear
equation when the leading coefficient is zero).  The square root of the
discriminant is computed by the explicit `sqrt` argument. -/
def findRootsQuadratic (sqrt : α → α) (a2 a1 a0 : α) : Roots α :=
  if a2 = 0 then
    if a1 = 0 then .no else .one (-a0 / a1)
  else
    let discriminant := a1 * a1 - 4 * a2 * a0
    if discriminant < 0 then .no
    else if discriminant = 0 then .one (-a1 / (2 * a2))
    else
      let sq := sqrt discriminant
      let x1 := (-a1 - sq) / (2 * a2)
      let x2 := (-a1 + sq) / (2 * a2)
      if x1 < x2 then .two x1 x2 else .two x2 x1

/-- The variants the default `get_intersection_point` implementation
handles; `Roots::Three`/`Roots::Four` fall into its `unreachable!()` arm. -/
def Roots.atMostTwo : Roots α → Prop
  | .no => True
  | .one _ => True
  | .two _ _ => True
  | _ => False

instance (rt : Roots α) : Decidable rt.atMostTwo := by
  unfold Roots.atMostTwo; cases rt <;> infer_instance

/-- The three-way comparison `f32::partial_cmp` yields on non-NaN inputs;
over an exact linear order `partial_cmp` is always `Some` of this. -/
def cmp3 (a b : α) : Ordering :=
  if a < b then .lt else if a = b then .eq else .gt

/-- `std::cmp::min_by`: the smaller argument under a comparator, the first
one on ties. -/
def stdMinBy (f : α → α → Ordering) (a b : α) : α :=
  match f a b with
  | .gt => b
  | _ => a

/-- `std::cmp::max_by`: the larger argument under a comparator, the second
one on ties. -/
def stdMaxBy (f : α → α → Ordering) (a b : α) : α :=
  match f a b with
  | .gt => a
  | _ => b

/-- `Iterator::min_by`: the first element that is minimal under the
comparator (`none` on an empty list).  Folds exactly as the Rust iterator
adapter does: the accumulator is replaced only when it compares `Greater`. -/
def iterMinBy {β : Type} (f : β → β → Ordering) : List β → Option β
  | [] => none
  | x :: xs =>
    some (xs.foldl (fun acc y => match f acc y with | .gt => y | _ => acc) x)

/-- `Triangle` from `src/ray-tracer-slave/src/shapes/mesh.rs`: three
vertices plus constant material samples (the `node_index` bookkeeping field
carries no geometric content and is omitted). -/
structure Triangle (α : Type) where
  a : Vec3 α
  b : Vec3 α
  c : Vec3 α
  pAlbedoAt : Color α
  pRoughnessAt : α
  pEmissionAt : α
deriving DecidableEq, Repr

namespace Triangle

/-- The Möller–Trumbore determinant `a_to_b.dot(ray.direction.cross(a_to_c))`
computed by `Triangle::get_roots`. -/
def mtDet (t : Triangle α) (r : Ray α) : α :=
  (t.b - t.a).dot (r.direction.cross (t.c - t.a))

/-- The same determinant for a triangle given as three loose points, as
`Ray::intersects_triangle` computes it. -/
def mtDetPoints (r : Ray α) (a b c : Vec3 α) : α :=
  (b - a).dot (r.direction.cross (c - a))

/-- `Triangle::get_roots` from `mesh.rs` lines 109-161: Möller–Trumbore
returning `Roots::One([dist])` on a hit and `Roots::No([])` otherwise.
Note the determinant test `det < EPSILON && det > -EPSILON`: only a
near-zero determinant is rejected, a negative one is not. -/
def getRoots (t : Triangle α) (r : Ray α) : Roots α :=
  -- const EPSILON: f32 = 0.00001, read as the rational 1/100000
  let epsilon : α := 1 / 100000
  let aToB := t.b - t.a
  let aToC := t.c - t.a
  let uVec := r.direction.cross aToC
  let det := aToB.dot uVec
  if det < epsilon ∧ det > -epsilon then .no
  else
    let invDet := 1 / det
    let aToOrigin := r.origin - t.a
    let u := aToOrigin.dot uVec * invDet
    if ¬(0 ≤ u ∧ u ≤ 1) then .no
    else
      let vVec := aToOrigin.cross aToB
      let v := r.direction.dot vVec * invDet
      if v < 0 ∨ u + v > 1 then .no
      else
        let dist := aToC.dot vVec * invDet
        if dist > epsilon then .one dist else .no

/-- `Triangle::normal_at`. -/
def normalAt (sqrt : α → α) (t : Triangle α) (_p : Vec3 α) : Vec3 α :=
  ((t.a - t.b).cross (t.a - t.c)).normalizeOrZero sqrt

/-- `Triangle::aabb` from `mesh.rs` lines 47-95: per-coordinate
`min_by`/`max_by` chains over the three vertices (the comparator
`partial_cmp(..).unwrap_or(Equal)` is plain comparison over an exact
field). -/
def aabb (t : Triangle α) : AABB α :=
  let lo : Vec3 α :=
    ⟨stdMinBy cmp3 (stdMinBy cmp3 t.a.x t.c.x) t.b.x,
     stdMinBy cmp3 (stdMinBy cmp3 t.a.y t.c.y) t.b.y,
     stdMinBy cmp3 (stdMinBy cmp3 t.a.z t.c.z) t.b.z⟩
  let hi : Vec3 α :=
    ⟨stdMaxBy cmp3 (stdMaxBy cmp3 t.a.x t.c.x) t.b.x,
     stdMaxBy cmp3 (stdMaxBy cmp3 t.a.y t.c.y) t.b.y,
     stdMaxBy cmp3 (stdMaxBy cmp3 t.a.z t.c.z) t.b.z⟩
  AABB.withBounds lo hi

end Triangle

/-- `Sphere` from `src/ray-tracer-slave/src/shapes/sphere.rs` (again minus
the `node_index` bookkeeping field). -/
structure Sphere (α : Type) where
  radius : α
  center : Vec3 α
  pAlbedoAt : Color α
  pRoughnessAt : α
  pEmissionAt : α
deriving DecidableEq, Repr

namespace Sphere

/-- `Sphere::get_roots`: the quadratic `a = 1`,
`b = (2 * dir) · (origin − center)`, `c = |origin − center|² − r²`
handed to `roots::find_roots_quadratic`.  The source computes
`c` as `length().powi(2)`, i.e. `sqrt(len²)²`, which in exact arithmetic is
the squared length itself. -/
def getRoots (sqrt : α → α) (s : Sphere α) (r : Ray α) : Roots α :=
  let a : α := 1
  let b := (Vec3.smul 2 r.direction).dot (r.origin - s.center)
  let c := (r.origin - s.center).lengthSq - s.radius * s.radius
  findRootsQuadratic sqrt a b c

/-- `Sphere::normal_at`. -/
def normalAt (sqrt : α → α) (s : Sphere α) (p : Vec3 α) : Vec3 α :=
  (p - s.center).normalizeOrZero sqrt

/-- `Sphere::aabb`: center ± radius on each axis. -/
def aabb (s : Sphere α) : AABB α :=
  let halfSize : Vec3 α := ⟨s.radius, s.radius, s.radius⟩
  AABB.withBounds (s.center - halfSize) (s.center + halfSize)

end Sphere

/-- The closed shape union `Object` from
`src/ray-tracer-slave/src/shapes/mod.rs`. -/
inductive Object (α : Type) where
  | sphere : Sphere α → Object α
  | triangle : Triangle α → Object α
deriving DecidableEq, Repr

namespace Object

/-- `Object::get_roots`: dispatch on the variant. -/
def getRoots (sqrt : α → α) (o : Object α) (r : Ray α) : Roots α :=
  match o with
  | .sphere s => s.getRoots sqrt r
  | .triangle t => t.getRoots r

/-- `Object::normal_at`. -/
def normalAt (sqrt : α → α) (o : Object α) (p : Vec3 α) : Vec3 α :=
  match o with
  | .sphere s => s.normalAt sqrt p
  | .triangle t => t.normalAt sqrt p

/-- `Object::albedo_at` (both shapes sample a constant). -/
def albedoAt (o : Object α) (_p : Vec3 α) : Color α :=
  match o with
  | .sphere s => s.pAlbedoAt
  | .triangle t => t.pAlbedoAt

/-- `Object::roughness_at`. -/
def roughnessAt (o : Object α) (_p : Vec3 α) : α :=
  match o with
  | .sphere s => s.pRoughnessAt
  | .triangle t => t.pRoughnessAt

/-- `Object::emission_at`. -/
def emissionAt (o : Object α) (_p : Vec3 α) : α :=
  match o with
  | .sphere s => s.pEmissionAt
  | .triangle t => t.pEmissionAt

/-- `Bounded::aabb` for `Object`. -/
def aabb (o : Object α) : AABB α :=
  match o with
  | .sphere s => s.aabb
  | .triangle t => t.aabb

/-- Geometric well-formedness of a scene primitive: a sphere carries a
nonnegative radius (a triangle has no side condition). -/
def radiusNonneg (o : Object α) : Prop :=
  match o with
  | .sphere s => 0 ≤ s.radius
  | .triangle _ => True

end Object

/-- `T_MIN` from `shapes/mod.rs` (`0.001`). -/
def T_MIN : α := 1 / 1000

/-- `T_MAX` from `shapes/mod.rs` (`1000.0`). -/
def T_MAX : α := 1000

/-- The default `Intersectable::get_intersection_point` from
`shapes/mod.rs` lines 106-129, with the `_ => unreachable!()` arm embedded
as the `none` of the outer `Option` (a panic); the inner `Option` is the
source's return value.  `some none` means "returned `None`", `none` means
"the unreachable arm panicked". -/
def getIntersectionPointChecked (sqrt : α → α) (o : Object α) (r : Ray α) :
    Option (Option (Vec3 α)) :=
  match o.getRoots sqrt r with
  | .no => some ((none : Option α).map r.at)
  | .one x =>
    some ((if T_MIN ≤ x ∧ x < T_MAX then some x else none).map r.at)
  | .two x y =>
    let xInRange := T_MIN ≤ x ∧ x < T_MAX
    let yInRange := T_MIN ≤ y ∧ y < T_MAX
    some ((if xInRange then (if yInRange then some (if x < y then x else y)
                             else some x)
           else (if yInRange then some y else none)).map r.at)
  | _ => none

/-- The total reading of `get_intersection_point`: the value it returns in
every run in which the `unreachable!()` arm is not taken (the claim-C9
theorem shows the arm is never taken). -/
def getIntersectionPoint (sqrt : α → α) (o : Object α) (r : Ray α) :
    Option (Vec3 α) :=
  (getIntersectionPointChecked sqrt o r).getD none

/-- `IntersectionTable` from `shapes/mod.rs`. -/
structure IntersectionTable (α : Type) where
  point : Vec3 α
  normal : Vec3 α
  albedo : Color α
  roughness : α
  emission : α
deriving DecidableEq, Repr

/-- `WorldRefList::intersect` from `shapes/mod.rs` lines 158-191: collect
each object's optional intersection point; if all are `None` return `None`;
otherwise take `min_by` on the distance of the point from the ray origin
(the comparator `partial_cmp(..).unwrap_or(Less)` never sees an incomparable
pair over an exact field) and build the record from that one object. -/
def worldIntersect (sqrt : α → α) (objs : List (Object α)) (r : Ray α) :
    Option (IntersectionTable α) :=
  let intersects : List (Option (Object α × Vec3 α)) :=
    (objs.map fun e => (e, getIntersectionPoint sqrt e r)).map fun e =>
      match e.2 with
      | some point => some (e.1, point)
      | none => none
  if intersects.all Option.isNone then none
  else
    (iterMinBy
        (fun a b =>
          cmp3 ((a.2 - r.origin).length sqrt) ((b.2 - r.origin).length sqrt))
        (intersects.filterMap id)).map
      fun e =>
        { emission := e.1.emissionAt e.2
          point := e.2
          normal := e.1.normalAt sqrt e.2
          albedo := e.1.albedoAt e.2
          roughness := e.1.roughnessAt e.2 }

/-- Bounding volume hierarchy.
Modelled from the spec: `BVH::build`/`BVH::traverse` live in the vendored
crate's `bvh.rs`, which is not among the sources (only `ray.rs` is).  Per
the spec's data model, a node is "an axis-aligned bounding box plus either
two child indices or a primitive index range"; the index indirection is
flattened into a tree whose leaves carry their primitives directly. -/
inductive BVHTree (α : Type) where
  | leaf : AABB α → List (Object α) → BVHTree α
  | node : AABB α → BVHTree α → BVHTree α → BVHTree α

/-- The bounding box of the root node. -/
def BVHTree.box : BVHTree α → AABB α
  | .leaf bx _ => bx
  | .node bx _ _ => bx

/-- All primitives stored in the tree's leaves. -/
def BVHTree.prims : BVHTree α → List (Object α)
  | .leaf _ ps => ps
  | .node _ l r => l.prims ++ r.prims

/-- `BVH::traverse`.
Modelled from the spec: "descends the tree, pruning any subtree whose
bounding box the ray provably misses, via a slab test"; the slab test is
the source's `Ray::intersects_aabb`. -/
def BVHTree.traverse (r : Ray α) : BVHTree α → List (Object α)
  | .leaf bx ps => if r.intersectsAabb bx then ps else []
  | .node bx l rt =>
    if r.intersectsAabb bx then l.traverse r ++ rt.traverse r else []

/-- The spec's BVH structural invariant: "every node's box contains the
union of its children's boxes (or its primitives' boxes)". -/
def BVHTree.wf : BVHTree α → Prop
  | .leaf bx ps => ∀ p ∈ ps, p.aabb.subset bx
  | .node bx l r =>
    l.wf ∧ r.wf ∧ l.box.subset bx ∧ r.box.subset bx

/-- `ray_color` from `src/ray-tracer-slave/src/main.rs` lines 113-151.
The recursion is on the `depth` counter (`if depth == 0 { BLACK }`,
recursing with `depth - 1`); the `UnitSphere.sample(rng)` drawn in the
scatter branch is modelled by consuming the head of an explicit stream
`samples` of sampled vectors.  The BVH traversal candidates come from the
spec-modelled `BVHTree.traverse`. -/
def rayColor (sqrt : α → α) (tree : BVHTree α) (r : Ray α) :
    ℕ → List (Vec3 α) → Color α
  | 0, _ => Color.black
  | depth + 1, samples =>
    let worldSub := tree.traverse r
    match worldIntersect sqrt worldSub r with
    | some table =>
      if table.emission > 0 then Color.scale table.emission table.albedo
      else
        let diffuseDir := samples.headD Vec3.zero + table.normal
        let glossyDir :=
          r.direction -
            Vec3.smul (2 * r.direction.dot table.normal) table.normal
        let scatterDirection :=
          diffuseDir + Vec3.smul table.roughness (glossyDir - diffuseDir)
        table.albedo.blend
          (rayColor sqrt tree
            (Ray.new sqrt table.point
              ((scatterDirection.tryNormalize sqrt).getD table.normal))
            depth samples.tail)
    | none =>
      let t := (r.direction.normalizeOrZero sqrt).y * (1 / 2) + 1
      Color.add (Color.scale t Color.white)
        (Color.scale (1 - t) ⟨3 / 10, 3 / 10, 8 / 10⟩)

/-- The simple ray of `src/src/ray.rs` (origin and direction, no caches),
the type `Camera::get_ray` returns. -/
structure SimpleRay (α : Type) where
  origin : Vec3 α
  direction : Vec3 α
deriving DecidableEq, Repr

/-- `Ray::at` for the simple ray. -/
def SimpleRay.at (r : SimpleRay α) (t : α) : Vec3 α :=
  r.origin + Vec3.smul t r.direction

/-- `Camera` from `src/src/camera.rs`. -/
structure Camera (α : Type) where
  origin : Vec3 α
  lowerLeftCorner : Vec3 α
  horizontal : Vec3 α
  aspectRatio : α
  imageHeight : α
  vertical : Vec3 α
  aperture : α
  focalLength : α
  fieldOfView : α
  focusDistance : α
deriving DecidableEq, Repr

/-- `Camera::new` from `src/src/camera.rs` lines 20-48; the tangent used
for the viewport height is the explicit function argument `tan`. -/
def Camera.new (tan : α → α) (origin : Vec3 α)
    (aspectRatio aperture focusDistance fieldOfView focalLength
      imageHeight : α) : Camera α :=
  let vh := 2 * tan (fieldOfView / 2)
  let vw := aspectRatio * vh
  let horizontal : Vec3 α := ⟨vw, 0, 0⟩
  let vertical : Vec3 α := ⟨0, vh, 0⟩
  { origin := origin
    horizontal := horizontal
    focusDistance := focusDistance
    imageHeight := imageHeight
    fieldOfView := fieldOfView
    focalLength := focalLength
    aspectRatio := aspectRatio
    vertical := vertical
    aperture := aperture
    lowerLeftCorner :=
      origin - Vec3.smul (1 / 2) horizontal - Vec3.smul (1 / 2) vertical -
        ⟨0, 0, focalLength⟩ }

/-- `Camera::get_ray` from `src/src/camera.rs` lines 110-135.  The
`UnitDisc.sample(rng)` pair is the explicit argument `(a, b)` and the two
`rng.gen_range(0f32..1f32)` pixel jitters are `jx`, `jy`; `sqrt` backs the
two `normalize_or_zero` calls.  (`horizontal / 2f32` is scalar division,
i.e. scaling by `1/2`.) -/
def Camera.getRay (sqrt : α → α) (cam : Camera α) (x y : ℕ)
    (a b jx jy : α) : SimpleRay α :=
  let lensRadius := cam.aperture / 2
  let offset : Vec3 α := ⟨a * lensRadius, b * lensRadius, 0⟩
  let u := ((x : α) + jx) / (cam.aspectRatio * cam.imageHeight - 1)
  let v := ((y : α) + jy) / (cam.imageHeight - 1)
  let focalPoint :=
    SimpleRay.at
      ⟨cam.origin,
        (cam.lowerLeftCorner + Vec3.smul u cam.horizontal +
            Vec3.smul v cam.vertical - cam.origin).normalizeOrZero sqrt⟩
      cam.focusDistance
  ⟨cam.origin, (focalPoint - cam.origin - offset).normalizeOrZero sqrt⟩

/-- The lens offset `Camera::get_ray` samples:
`(a * lens_radius, b * lens_radius, 0)` with `lens_radius = aperture / 2`. -/
def Camera.lensOffset (cam : Camera α) (a b : α) : Vec3 α :=
  ⟨a * (cam.aperture / 2), b * (cam.aperture / 2), 0⟩

/-- The frame row the slave's render loop shades for image-buffer row `y`:
`let y = image_height as usize - y - 1` in
`src/ray-tracer-slave/src/main.rs` line 73 (natural-number subtraction,
as in Rust `usize`). -/
def workerFrameRow (imageHeight y : ℕ) : ℕ := imageHeight - y - 1

/-- The list of frame rows one render request shades: the slave's buffer
holds `image_height / divisions` rows (`main.rs` lines 58-64), and buffer
row `y` shades frame row `workerFrameRow`.  The request's `division_no` is
a parameter of the request but — exactly as in the source loop — it is
never consulted when choosing the rows. -/
def workerRenderedFrameRows (imageHeight divisions _divisionNo : ℕ) :
    List ℕ :=
  (List.range (imageHeight / divisions)).map
    (fun y => workerFrameRow imageHeight y)

/-- The controller's in-memory result table: job id to stored result
string (`HashMap<String, String>` in
`src/ray-tracer-controller/src/main.rs`), keys unique. -/
abbrev JobTable : Type := List (String × String)

/-- The controller worker's `MessageToWorker::Get` handler
(`ray-tracer-controller/src/main.rs` lines 133-136):
`results.remove(&id).unwrap_or(String::new())` — return the stored string
(or the empty string when the id is absent) and remove the binding. -/
def controllerGet (results : JobTable) (id : String) :
    String × JobTable :=
  (((results.find? (fun p => p.1 = id)).map Prod.snd).getD "",
    results.eraseP (fun p => p.1 = id))

/-! ## Helper lemmas -/

@[simp] theorem Vec3.add_x (a b : Vec3 α) : (a + b).x = a.x + b.x := rfl
@[simp] theorem Vec3.add_y (a b : Vec3 α) : (a + b).y = a.y + b.y := rfl
@[simp] theorem Vec3.add_z (a b : Vec3 α) : (a + b).z = a.z + b.z := rfl
@[simp] theorem Vec3.sub_x (a b : Vec3 α) : (a - b).x = a.x - b.x := rfl
@[simp] theorem Vec3.sub_y (a b : Vec3 α) : (a - b).y = a.y - b.y := rfl
@[simp] theorem Vec3.sub_z (a b : Vec3 α) : (a - b).z = a.z - b.z := rfl
@[simp] theorem Vec3.smul_x (s : α) (v : Vec3 α) :
    (Vec3.smul s v).x = s * v.x := rfl
@[simp] theorem Vec3.smul_y (s : α) (v : Vec3 α) :
    (Vec3.smul s v).y = s * v.y := rfl
@[simp] theorem Vec3.smul_z (s : α) (v : Vec3 α) :
    (Vec3.smul s v).z = s * v.z := rfl
@[simp] theorem Vec3.dot_def (a b : Vec3 α) :
    a.dot b = a.x * b.x + a.y * b.y + a.z * b.z := rfl
@[simp] theorem Vec3.cross_x (a b : Vec3 α) :
    (a.cross b).x = a.y * b.z - a.z * b.y := rfl
@[simp] theorem Vec3.cross_y (a b : Vec3 α) :
    (a.cross b).y = a.z * b.x - a.x * b.z := rfl
@[simp] theorem Vec3.cross_z (a b : Vec3 α) :
    (a.cross b).z = a.x * b.y - a.y * b.x := rfl
@[simp] theorem Vec3.lengthSq_def (v : Vec3 α) :
    v.lengthSq = v.x * v.x + v.y * v.y + v.z * v.z := rfl
@[simp] theorem Vec3.mk_add_mk (x1 y1 z1 x2 y2 z2 : α) :
    (⟨x1, y1, z1⟩ + ⟨x2, y2, z2⟩ : Vec3 α) = ⟨x1 + x2, y1 + y2, z1 + z2⟩ := rfl
@[simp] theorem Vec3.mk_sub_mk (x1 y1 z1 x2 y2 z2 : α) :
    (⟨x1, y1, z1⟩ - ⟨x2, y2, z2⟩ : Vec3 α) = ⟨x1 - x2, y1 - y2, z1 - z2⟩ := rfl
@[simp] theorem Vec3.smul_mk (s x y z : α) :
    Vec3.smul s (⟨x, y, z⟩ : Vec3 α) = ⟨s * x, s * y, s * z⟩ := rfl

theorem fmin_eq_min (x y : α) : fmin x y = min x y := by
  unfold fmin
  split_ifs with h
  · exact (min_eq_left h.le).symm
  · exact (min_eq_right (not_lt.mp h)).symm

theorem fmax_eq_max (x y : α) : fmax x y = max x y := by
  unfold fmax
  split_ifs with h
  · exact (max_eq_left h.le).symm
  · exact (max_eq_right (not_lt.mp h)).symm

theorem cmp3_eq_gt_iff {a b : α} : cmp3 a b = .gt ↔ b < a := by
  unfold cmp3
  split_ifs with h1 h2
  · simp [h1.asymm]
  · subst h2; simp [lt_irrefl]
  · simp [lt_of_le_of_ne (not_lt.mp h1) (Ne.symm h2)]

theorem stdMinBy_cmp3_eq (a b : α) : stdMinBy cmp3 a b = min a b := by
  unfold stdMinBy cmp3
  split_ifs with h1 h2
  · exact (min_eq_left h1.le).symm
  · subst h2; exact (min_self a).symm
  · exact (min_eq_right (not_lt.mp h1)).symm

theorem stdMaxBy_cmp3_eq (a b : α) : stdMaxBy cmp3 a b = max a b := by
  unfold stdMaxBy cmp3
  split_ifs with h1 h2
  · exact (max_eq_right h1.le).symm
  · subst h2; exact (max_self a).symm
  · exact (max_eq_left (not_lt.mp h1)).symm

theorem rustCastU8_le_255 [FloorRing α] (q : α) : rustCastU8 q ≤ 255 := by
  unfold rustCastU8
  have : (min 255 ⌊q⌋) ≤ ((255 : ℕ) : ℤ) :=
    le_trans (min_le_left (255 : ℤ) ⌊q⌋) (by norm_num)
  exact Int.toNat_le.mpr this

theorem rustCastU8_of_ge [FloorRing α] {q : α} (h : 255 ≤ q) :
    rustCastU8 q = 255 := by
  unfold rustCastU8
  have h1 : (255 : ℤ) ≤ ⌊q⌋ := by
    rw [Int.le_floor]; exact_mod_cast h
  rw [min_eq_left h1]
  rfl

theorem rustCastU8_of_neg [FloorRing α] {q : α} (h : q < 0) :
    rustCastU8 q = 0 := by
  unfold rustCastU8
  have h1 : ⌊q⌋ < 0 := by
    have := Int.floor_le q
    by_contra hc
    push_neg at hc
    have : (0 : α) ≤ q := le_trans (by exact_mod_cast hc) (Int.floor_le q)
    exact absurd h (not_lt.mpr this)
  rw [min_eq_right (h1.le.trans (by norm_num : (0 : ℤ) ≤ 255))]
  exact Int.toNat_of_nonpos h1.le

/-! ## Claim C10 -/

/-- Claim C10: for every `Color`, `as_slice` maps each channel `c` to the
saturating `u8` cast of `c * 255.999`: any channel whose scaled value is
255 or more yields byte 255, any negative channel yields byte 0, and every
produced byte is at most 255 (no wrap-around, no panic).  (A NaN channel is
not representable in the exact-field embedding; the saturating cast itself
is total.) -/
theorem claim_C10_asSlice_saturates [FloorRing α] (c : Color α) :
    (∀ v ∈ c.asSlice, v ≤ 255) ∧
    (255 ≤ c.r * (255999 / 1000) → c.asSlice.getD 0 0 = 255) ∧
    (c.r < 0 → c.asSlice.getD 0 0 = 0) ∧
    (255 ≤ c.g * (255999 / 1000) → c.asSlice.getD 1 0 = 255) ∧
    (c.g < 0 → c.asSlice.getD 1 0 = 0) ∧
    (255 ≤ c.b * (255999 / 1000) → c.asSlice.getD 2 0 = 255) ∧
    (c.b < 0 → c.asSlice.getD 2 0 = 0) := by
  have hneg : ∀ q : α, q < 0 → q * (255999 / 1000) < 0 := fun q hq =>
    mul_neg_of_neg_of_pos hq (by norm_num)
  refine ⟨?_, ?_, ?_, ?_, ?_, ?_, ?_⟩
  · intro v hv
    simp only [Color.asSlice, List.mem_cons, List.not_mem_nil, or_false] at hv
    rcases hv with h | h | h <;> exact h ▸ rustCastU8_le_255 _
  · intro h; simp [Color.asSlice, rustCastU8_of_ge h]
  · intro h; simp [Color.asSlice, rustCastU8_of_neg (hneg _ h)]
  · intro h; simp [Color.asSlice, rustCastU8_of_ge h]
  · intro h; simp [Color.asSlice, rustCastU8_of_neg (hneg _ h)]
  · intro h; simp [Color.asSlice, rustCastU8_of_ge h]
  · intro h; simp [Color.asSlice, rustCastU8_of_neg (hneg _ h)]

/-- Witness for C10 at the concrete color `(300, -1, 1/2)`. -/
theorem claim_C10_witness :
    ((255 : ℚ) ≤ 300 * (255999 / 1000) ∧ (-1 : ℚ) < 0) ∧
    (Color.asSlice (⟨300, -1, 1 / 2⟩ : Color ℚ)).getD 0 0 = 255 ∧
    (Color.asSlice (⟨300, -1, 1 / 2⟩ : Color ℚ)).getD 1 0 = 0 := by
  refine ⟨⟨by norm_num, by norm_num⟩, ?_, ?_⟩
  · exact (claim_C10_asSlice_saturates (⟨300, -1, 1 / 2⟩ : Color ℚ)).2.1
      (by norm_num)
  · exact (claim_C10_asSlice_saturates
      (⟨300, -1, 1 / 2⟩ : Color ℚ)).2.2.2.2.1 (by norm_num)

/-! ## Claim C4 -/

/-- Claim C4 (code bug): the slave's render loop derives the shaded frame
rows from the buffer row alone (`y = image_height - y - 1`), never from the
request's division index.  At frame height 4 with 2 divisions, divisions 0
and 1 both shade frame rows `[3, 2]` — the same top band, not disjoint
ranges. -/
theorem claim_C4_rows_ignore_division :
    workerRenderedFrameRows 4 2 0 = [3, 2] ∧
    workerRenderedFrameRows 4 2 1 = [3, 2] ∧
    ¬ (workerRenderedFrameRows 4 2 0).Disjoint (workerRenderedFrameRows 4 2 1) := by
  refine ⟨by decide, by decide, ?_⟩
  intro h
  exact h (by decide : (3 : ℕ) ∈ workerRenderedFrameRows 4 2 0) (by decide)

/-! ## Claim C5 -/

theorem find_eq_of_nodup_mem {t : JobTable} {id v : String}
    (huniq : (t.map Prod.fst).Nodup) (hmem : (id, v) ∈ t) :
    t.find? (fun p => p.1 = id) = some (id, v) := by
  induction t with
  | nil => cases hmem
  | cons p rest ih =>
    simp only [List.map_cons, List.nodup_cons] at huniq
    by_cases hp : p.1 = id
    · have hpv : p = (id, v) := by
        rcases List.mem_cons.mp hmem with h | h
        · exact h.symm
        · exact absurd (hp ▸ List.mem_map.mpr ⟨(id, v), h, rfl⟩) huniq.1
      rw [List.find?_cons_of_pos _ (by simpa using hp), hpv]
    · rw [List.find?_cons_of_neg _ (by simpa using hp)]
      apply ih huniq.2
      rcases List.mem_cons.mp hmem with h | h
      · exact absurd (congrArg Prod.fst h.symm) hp
      · exact h

theorem find_eraseP_eq_none {t : JobTable} {id : String}
    (huniq : (t.map Prod.fst).Nodup) :
    (t.eraseP (fun p => p.1 = id)).find? (fun p => p.1 = id) = none := by
  induction t with
  | nil => rfl
  | cons p rest ih =>
    simp only [List.map_cons, List.nodup_cons] at huniq
    by_cases hp : p.1 = id
    · rw [List.eraseP_cons_of_pos (by simpa using hp)]
      rw [List.find?_eq_none]
      intro q hq hqid
      apply huniq.1
      have hq1 : q.1 = id := by simpa using hqid
      rw [hp, ← hq1]
      exact List.mem_map.mpr ⟨q, hq, rfl⟩
    · rw [List.eraseP_cons_of_neg (by simpa using hp)]
      rw [List.find?_cons_of_neg _ (by simpa using hp)]
      exact ih huniq.2

/-- Claim C5 counterexample: after the single stored result for a job id is
polled (returning it and removing the binding), a second poll for the same
id yields the empty string, not the status `"no such job"` the claim
requires. -/
theorem claim_C5_counterexample :
    controllerGet [("job1", "IMG")] "job1" = ("IMG", []) ∧
    (controllerGet [] "job1").1 = "" ∧
    (controllerGet [] "job1").1 ≠ "no such job" := by
  refine ⟨by decide, by decide, by decide⟩

/-- Claim C5 as amended: the controller's poll path
(`MessageToWorker::Get`) is one-shot — for a job table with unique ids, a
poll for a stored id returns the stored result string and removes the
binding, and a subsequent poll for the same id returns the empty string
(there is no `"no such job"` status, and what is stored is the
concatenation of worker acknowledgement texts in dispatch order, not
division-sorted slice bytes). -/
theorem claim_C5_poll_one_shot (t : JobTable) (id v : String)
    (huniq : (t.map Prod.fst).Nodup) (hmem : (id, v) ∈ t) :
    (controllerGet t id).1 = v ∧
    (controllerGet (controllerGet t id).2 id).1 = "" := by
  constructor
  · unfold controllerGet
    rw [find_eq_of_nodup_mem huniq hmem]
    rfl
  · unfold controllerGet
    rw [find_eraseP_eq_none huniq]
    rfl

/-- Witness for C5 at a concrete two-job table. -/
theorem claim_C5_witness :
    ((([("a", "X"), ("b", "Y")] : JobTable).map Prod.fst).Nodup ∧
      ("a", "X") ∈ ([("a", "X"), ("b", "Y")] : JobTable)) ∧
    (controllerGet [("a", "X"), ("b", "Y")] "a").1 = "X" ∧
    (controllerGet (controllerGet [("a", "X"), ("b", "Y")] "a").2 "a").1 = "" := by
  refine ⟨⟨by decide, by decide⟩, ?_⟩
  exact claim_C5_poll_one_shot [("a", "X"), ("b", "Y")] "a" "X"
    (by decide) (by decide)

/-! ## Claim C6 -/

/-- Claim C6 (code bug): `Camera::get_ray` always returns a ray whose
origin is the unshifted camera origin — the sampled lens offset is
subtracted inside the direction computation but never added to the returned
origin, although the source comment ("return ray, from random point in the
disk, to the focal point") and the thin-lens model both call for
`origin + offset`.  The concrete conjunct exhibits a camera and a nonzero
disk sample where the returned origin differs from the origin-plus-offset
the claim requires. -/
theorem claim_C6_get_ray_origin_unshifted :
    (∀ (sqrt : α → α) (cam : Camera α) (x y : ℕ) (a b jx jy : α),
        (cam.getRay sqrt x y a b jx jy).origin = cam.origin) ∧
    ((Camera.getRay (α := ℚ) (fun _ => 0)
          ⟨⟨0, 0, 0⟩, ⟨-1, -1, -1⟩, ⟨2, 0, 0⟩, 1, 2, ⟨0, 2, 0⟩, 1, 1, 1, 1⟩
          0 0 1 0 0 0).origin ≠
        (⟨0, 0, 0⟩ : Vec3 ℚ) +
          Camera.lensOffset
            ⟨⟨0, 0, 0⟩, ⟨-1, -1, -1⟩, ⟨2, 0, 0⟩, 1, 2, ⟨0, 2, 0⟩, 1, 1, 1, 1⟩
            1 0) := by
  constructor
  · intro sqrt cam x y a b jx jy
    rfl
  · norm_num [Camera.getRay, Camera.lensOffset]

/-! ## Claim C3 -/

/-- Claim C3 counterexample: the triangle intersection query the renderer
actually uses (`Triangle::get_roots` in `mesh.rs`) reports a hit for a ray
whose Möller–Trumbore determinant is negative (a back-face strike): for
the triangle `(0,0,0),(0,1,0),(1,0,0)` and the ray from `(1/4,1/4,1)` in
direction `(0,0,-1)` the determinant is `-1 < 0`, yet `get_roots` returns
`Roots::One([1])` — the hit is not culled. -/
theorem claim_C3_counterexample :
    Triangle.mtDet
        (⟨⟨0, 0, 0⟩, ⟨0, 1, 0⟩, ⟨1, 0, 0⟩, ⟨1, 0, 0⟩, 0, 0⟩ : Triangle ℚ)
        (Ray.mk' ⟨1 / 4, 1 / 4, 1⟩ ⟨0, 0, -1⟩) < 0 ∧
    Triangle.getRoots
        (⟨⟨0, 0, 0⟩, ⟨0, 1, 0⟩, ⟨1, 0, 0⟩, ⟨1, 0, 0⟩, 0, 0⟩ : Triangle ℚ)
        (Ray.mk' ⟨1 / 4, 1 / 4, 1⟩ ⟨0, 0, -1⟩) = .one 1 := by
  refine ⟨by norm_num [Triangle.mtDet, Ray.mk'],
    by norm_num [Triangle.getRoots, Ray.mk']⟩

/-- Claim C3 as amended: the renderer's `Triangle::get_roots` rejects only
a near-zero determinant (`|det| < EPSILON`, the ray lying in the triangle's
plane); a strictly negative determinant is not culled there.  Back-face
culling (`det < EPSILON` implies no hit) lives only in the bvh crate's
`Ray::intersects_triangle`, which the renderer does not call. -/
theorem claim_C3_near_zero_det_rejected (t : Triangle α) (r : Ray α)
    (inf : α) (a b c : Vec3 α)
    (h1 : -(1 / 100000) < t.mtDet r) (h2 : t.mtDet r < 1 / 100000)
    (h3 : Triangle.mtDetPoints r a b c < 1 / 100000) :
    t.getRoots r = .no ∧ (r.intersectsTriangle inf a b c).distance = inf := by
  constructor
  · unfold Triangle.getRoots
    rw [if_pos]
    exact ⟨h2, by simpa [Triangle.mtDet] using h1⟩
  · unfold Ray.intersectsTriangle
    rw [if_pos (by simpa [Triangle.mtDetPoints] using h3)]

/-- Witness for C3 on a ray parallel to the triangle's plane
(determinant zero). -/
theorem claim_C3_witness :
    (Triangle.mtDet
          (⟨⟨0, 0, 0⟩, ⟨1, 0, 0⟩, ⟨0, 1, 0⟩, ⟨1, 0, 0⟩, 0, 0⟩ : Triangle ℚ)
          (Ray.mk' ⟨0, 0, 1⟩ ⟨1, 0, 0⟩) = 0) ∧
    Triangle.getRoots
        (⟨⟨0, 0, 0⟩, ⟨1, 0, 0⟩, ⟨0, 1, 0⟩, ⟨1, 0, 0⟩, 0, 0⟩ : Triangle ℚ)
        (Ray.mk' ⟨0, 0, 1⟩ ⟨1, 0, 0⟩) = .no ∧
    (Ray.intersectsTriangle (α := ℚ) 42 (Ray.mk' ⟨0, 0, 1⟩ ⟨1, 0, 0⟩)
        ⟨0, 0, 0⟩ ⟨1, 0, 0⟩ ⟨0, 1, 0⟩).distance = 42 := by
  refine ⟨by norm_num [Triangle.mtDet, Ray.mk'], ?_, ?_⟩
  · exact (claim_C3_near_zero_det_rejected
      (⟨⟨0, 0, 0⟩, ⟨1, 0, 0⟩, ⟨0, 1, 0⟩, ⟨1, 0, 0⟩, 0, 0⟩ : Triangle ℚ)
      (Ray.mk' ⟨0, 0, 1⟩ ⟨1, 0, 0⟩) 42 ⟨0, 0, 0⟩ ⟨1, 0, 0⟩ ⟨0, 1, 0⟩
      (by norm_num [Triangle.mtDet, Ray.mk'])
      (by norm_num [Triangle.mtDet, Ray.mk'])
      (by norm_num [Triangle.mtDetPoints, Ray.mk'])).1
  · exact (claim_C3_near_zero_det_rejected
      (⟨⟨0, 0, 0⟩, ⟨1, 0, 0⟩, ⟨0, 1, 0⟩, ⟨1, 0, 0⟩, 0, 0⟩ : Triangle ℚ)
      (Ray.mk' ⟨0, 0, 1⟩ ⟨1, 0, 0⟩) 42 ⟨0, 0, 0⟩ ⟨1, 0, 0⟩ ⟨0, 1, 0⟩
      (by norm_num [Triangle.mtDet, Ray.mk'])
      (by norm_num [Triangle.mtDet, Ray.mk'])
      (by norm_num [Triangle.mtDetPoints, Ray.mk'])).2

/-! ## Claim C9 -/

theorem findRootsQuadratic_atMostTwo (sqrt : α → α) (a2 a1 a0 : α) :
    (findRootsQuadratic sqrt a2 a1 a0).atMostTwo := by
  simp only [findRootsQuadratic]
  split_ifs <;> trivial

theorem triangle_getRoots_atMostTwo (t : Triangle α) (r : Ray α) :
    (t.getRoots r).atMostTwo := by
  simp only [Triangle.getRoots]
  split_ifs <;> trivial

/-- Claim C9: for every `Object` (sphere or triangle) and every ray,
`get_roots` only ever produces the `No`, `One`, or `Two` variants (the
sphere's quadratic has at most two real roots, a triangle at most one
distance), so the `unreachable!()` arm of the default
`get_intersection_point` is never executed: the checked embedding of
`get_intersection_point` always returns a value instead of panicking. -/
theorem claim_C9_getRoots_at_most_two (sqrt : α → α) (o : Object α)
    (r : Ray α) :
    (o.getRoots sqrt r).atMostTwo ∧
    (getIntersectionPointChecked sqrt o r).isSome = true := by
  have hroots : (o.getRoots sqrt r).atMostTwo := by
    cases o with
    | sphere s => exact findRootsQuadratic_atMostTwo sqrt 1 _ _
    | triangle t => exact triangle_getRoots_atMostTwo t r
  refine ⟨hroots, ?_⟩
  rcases h : o.getRoots sqrt r with _ | x | ⟨x, y⟩ | ⟨x, y, z⟩ | ⟨x, y, z, w⟩
  · unfold getIntersectionPointChecked; rw [h]; rfl
  · unfold getIntersectionPointChecked; rw [h]; rfl
  · unfold getIntersectionPointChecked; rw [h]; rfl
  · rw [h] at hroots; cases hroots
  · rw [h] at hroots; cases hroots

/-! ## Claim C2, counterexample -/

/-- Claim C2 counterexample: a ray that only grazes the box's edge.  For
the box `[0,1]³` and the ray from `(-1,3,1/2)` with direction
`(1,-1,1/100)` — all direction components nonzero and `min < max` on every
axis, so the claim's well-formedness conditions hold — the sign-indexed
slab test and the branchless test report a hit but the naive test reports
a miss: the three tests do not agree. -/
theorem claim_C2_counterexample :
    ((1 : ℚ) ≠ 0 ∧ (-1 : ℚ) ≠ 0 ∧ (1 / 100 : ℚ) ≠ 0 ∧
      ((0 : ℚ) < 1 ∧ (0 : ℚ) < 1 ∧ (0 : ℚ) < 1)) ∧
    (Ray.mk' (⟨-1, 3, 1 / 2⟩ : Vec3 ℚ) ⟨1, -1, 1 / 100⟩).intersectsAabb
        ⟨⟨0, 0, 0⟩, ⟨1, 1, 1⟩⟩ = true ∧
    (Ray.mk' (⟨-1, 3, 1 / 2⟩ : Vec3 ℚ) ⟨1, -1, 1 / 100⟩).intersectsAabbNaive
        ⟨⟨0, 0, 0⟩, ⟨1, 1, 1⟩⟩ = false ∧
    (Ray.mk' (⟨-1, 3, 1 / 2⟩ : Vec3 ℚ) ⟨1, -1, 1 / 100⟩).intersectsAabbBranchless
        1000000 ⟨⟨0, 0, 0⟩, ⟨1, 1, 1⟩⟩ = true := by
  refine ⟨by norm_num,
    by norm_num [Ray.intersectsAabb, Ray.mk', AABB.idx, fmin, fmax],
    by norm_num [Ray.intersectsAabbNaive, Ray.mk', AABB.idx],
    by norm_num [Ray.intersectsAabbBranchless, Ray.mk', AABB.idx, fmin, fmax]⟩

/-! ## Claim C2, amended theorem -/

theorem aabbIdx_sign_near (bx : AABB α) (d : α) :
    AABB.idx bx (if d < 0 then 1 else 0) = if d < 0 then bx.max else bx.min := by
  by_cases h : d < 0 <;> simp [AABB.idx, h]

theorem aabbIdx_sign_far (bx : AABB α) (d : α) :
    AABB.idx bx (1 - (if d < 0 then 1 else 0)) = if d < 0 then bx.min else bx.max := by
  by_cases h : d < 0 <;> simp [AABB.idx, h]

theorem min_max_pair (t1 t2 t : α) :
    min (max t1 t) (max t2 t) = max (min t1 t2) t := by
  rw [max_comm t1 t, max_comm t2 t, ← max_min_distrib_left, max_comm]

theorem max_min_pair (t1 t2 T : α) :
    max (min t1 T) (min t2 T) = min (max t1 t2) T := by
  rw [min_comm t1 T, min_comm t2 T, ← min_max_distrib_left, min_comm]

theorem slab_near_far {bmin bmax o d : α} (hd : d ≠ 0) (hb : bmin ≤ bmax) :
    ((if d < 0 then bmax else bmin) - o) * (1 / d) =
        min ((bmin - o) * (1 / d)) ((bmax - o) * (1 / d)) ∧
      ((if d < 0 then bmin else bmax) - o) * (1 / d) =
        max ((bmin - o) * (1 / d)) ((bmax - o) * (1 / d)) := by
  rcases hd.lt_or_lt with hneg | hpos
  · have hle : (bmax - o) * (1 / d) ≤ (bmin - o) * (1 / d) :=
      mul_le_mul_of_nonpos_right (by linarith) (one_div_neg.mpr hneg).le
    constructor
    · rw [if_pos hneg, min_eq_right hle]
    · rw [if_pos hneg, max_eq_left hle]
  · have hle : (bmin - o) * (1 / d) ≤ (bmax - o) * (1 / d) :=
      mul_le_mul_of_nonneg_right (by linarith) (one_div_pos.mpr hpos).le
    constructor
    · rw [if_neg (not_lt.mpr hpos.le), min_eq_left hle]
    · rw [if_neg (not_lt.mpr hpos.le), max_eq_right hle]

theorem claim_C2_slab_branchless_agree (o d : Vec3 α) (bx : AABB α) (inf : α)
    (hdx : d.x ≠ 0) (hdy : d.y ≠ 0) (hdz : d.z ≠ 0)
    (hbx : bx.min.x < bx.max.x) (hby : bx.min.y < bx.max.y)
    (hbz : bx.min.z < bx.max.z)
    (hinf : ∀ t ∈ slabProducts (Ray.mk' o d) bx, t < inf) :
    (Ray.mk' o d).intersectsAabbBranchless inf bx =
      (Ray.mk' o d).intersectsAabb bx ∧
    ((Ray.mk' o d).intersectsAabbNaive bx = true →
      (Ray.mk' o d).intersectsAabb bx = true) := by
  simp only [slabProducts, Ray.mk', List.mem_cons, List.not_mem_nil, or_false,
    forall_eq_or_imp, forall_eq] at hinf
  obtain ⟨h1, h2, h3, h4, h5, h6⟩ := hinf
  have hx := @slab_near_far α _ bx.min.x bx.max.x o.x d.x hdx hbx.le
  have hy := @slab_near_far α _ bx.min.y bx.max.y o.y d.y hdy hby.le
  have hz := @slab_near_far α _ bx.min.z bx.max.z o.z d.z hdz hbz.le
  constructor
  · simp only [Ray.intersectsAabb, Ray.intersectsAabbBranchless, Ray.mk',
      aabbIdx_sign_near, aabbIdx_sign_far, apply_ite Vec3.x, apply_ite Vec3.y,
      apply_ite Vec3.z, fmin_eq_min, fmax_eq_max, hx.1, hx.2, hy.1, hy.2,
      hz.1, hz.2, min_max_pair, max_min_pair]
    rw [min_eq_left (max_le h1.le h2.le)]
    rw [decide_eq_decide]
    constructor <;> intro h <;> simp only [max_le_iff, le_min_iff] at h ⊢ <;>
      tauto
  · simp only [Ray.intersectsAabb, Ray.intersectsAabbNaive, Ray.mk',
      aabbIdx_sign_near, aabbIdx_sign_far, apply_ite Vec3.x, apply_ite Vec3.y,
      apply_ite Vec3.z, fmin_eq_min, fmax_eq_max, hx.1, hx.2, hy.1, hy.2,
      hz.1, hz.2, decide_eq_true_eq]
    rintro ⟨ha, hb⟩
    exact max_le ha.le hb.le


/-- Witness for C2 at a concrete nondegenerate ray/box pair. -/
theorem claim_C2_witness :
    ((1 : ℚ) ≠ 0 ∧ (1 / 3 : ℚ) ≠ 0 ∧ (1 / 4 : ℚ) ≠ 0 ∧ (0 : ℚ) < 1) ∧
    ((Ray.mk' (⟨-2, 1 / 2, 1 / 2⟩ : Vec3 ℚ) ⟨1, 1 / 3, 1 / 4⟩).intersectsAabbBranchless
        1000000 ⟨⟨0, 0, 0⟩, ⟨1, 1, 1⟩⟩ =
      (Ray.mk' (⟨-2, 1 / 2, 1 / 2⟩ : Vec3 ℚ) ⟨1, 1 / 3, 1 / 4⟩).intersectsAabb
        ⟨⟨0, 0, 0⟩, ⟨1, 1, 1⟩⟩) ∧
    ((Ray.mk' (⟨-2, 1 / 2, 1 / 2⟩ : Vec3 ℚ) ⟨1, 1 / 3, 1 / 4⟩).intersectsAabbNaive
        ⟨⟨0, 0, 0⟩, ⟨1, 1, 1⟩⟩ = true →
      (Ray.mk' (⟨-2, 1 / 2, 1 / 2⟩ : Vec3 ℚ) ⟨1, 1 / 3, 1 / 4⟩).intersectsAabb
        ⟨⟨0, 0, 0⟩, ⟨1, 1, 1⟩⟩ = true) := by
  have h := claim_C2_slab_branchless_agree (⟨-2, 1 / 2, 1 / 2⟩ : Vec3 ℚ)
    ⟨1, 1 / 3, 1 / 4⟩ ⟨⟨0, 0, 0⟩, ⟨1, 1, 1⟩⟩ 1000000
    (by norm_num) (by norm_num) (by norm_num)
    (by norm_num) (by norm_num) (by norm_num)
    (by
      intro t ht
      simp only [slabProducts, Ray.mk', List.mem_cons, List.not_mem_nil,
        or_false] at ht
      rcases ht with h | h | h | h | h | h <;> (subst h; norm_num))
  exact ⟨⟨by norm_num, by norm_num, by norm_num, by norm_num⟩, h.1, h.2⟩

/-! ## Claim C8 -/

theorem cmp3_ne_gt_le {a b : α} (h : cmp3 a b ≠ .gt) : a ≤ b := by
  unfold cmp3 at h
  split_ifs at h with h1 h2
  · exact h1.le
  · exact h2.le
  · exact absurd rfl h

theorem foldl_ordStep_mem {β : Type} (f : β → β → Ordering) (x : β)
    (xs : List β) :
    xs.foldl (fun acc y => match f acc y with | .gt => y | _ => acc) x ∈
      x :: xs := by
  induction xs generalizing x with
  | nil => simp
  | cons y ys ih =>
    rw [List.foldl_cons]
    rcases hc : f x y with _ | _ | _ <;> simp only [hc]
    · rcases List.mem_cons.mp (ih x) with h | h
      · rw [h]; exact List.mem_cons_self _ _
      · exact List.mem_cons_of_mem _ (List.mem_cons_of_mem _ h)
    · rcases List.mem_cons.mp (ih x) with h | h
      · rw [h]; exact List.mem_cons_self _ _
      · exact List.mem_cons_of_mem _ (List.mem_cons_of_mem _ h)
    · rcases List.mem_cons.mp (ih y) with h | h
      · rw [h]; exact List.mem_cons_of_mem _ (List.mem_cons_self _ _)
      · exact List.mem_cons_of_mem _ (List.mem_cons_of_mem _ h)

theorem foldl_ordStep_le {β : Type} (f : β → β → Ordering) (len : β → α)
    (hgt : ∀ a b, f a b = .gt → len b ≤ len a)
    (hng : ∀ a b, f a b ≠ .gt → len a ≤ len b) (x : β) (xs : List β) :
    ∀ z ∈ x :: xs,
      len (xs.foldl
          (fun acc y => match f acc y with | .gt => y | _ => acc) x) ≤
        len z := by
  induction xs generalizing x with
  | nil =>
    intro z hz
    rw [List.mem_singleton] at hz
    subst hz
    exact le_refl _
  | cons y ys ih =>
    intro z hz
    rw [List.foldl_cons]
    rcases hc : f x y with _ | _ | _ <;> simp only [hc]
    · rcases List.mem_cons.mp hz with h | h
      · rw [h]; exact ih x x (List.mem_cons_self _ _)
      · rcases List.mem_cons.mp h with h' | h'
        · have hxy : len x ≤ len y :=
            hng x y (by rw [hc]; intro hcc; cases hcc)
          rw [h']
          exact le_trans (ih x x (List.mem_cons_self _ _)) hxy
        · exact ih x z (List.mem_cons_of_mem _ h')
    · rcases List.mem_cons.mp hz with h | h
      · rw [h]; exact ih x x (List.mem_cons_self _ _)
      · rcases List.mem_cons.mp h with h' | h'
        · have hxy : len x ≤ len y :=
            hng x y (by rw [hc]; intro hcc; cases hcc)
          rw [h']
          exact le_trans (ih x x (List.mem_cons_self _ _)) hxy
        · exact ih x z (List.mem_cons_of_mem _ h')
    · have hyx : len y ≤ len x := hgt x y hc
      rcases List.mem_cons.mp hz with h | h
      · rw [h]; exact le_trans (ih y y (List.mem_cons_self _ _)) hyx
      · rcases List.mem_cons.mp h with h' | h'
        · rw [h']; exact ih y y (List.mem_cons_self _ _)
        · exact ih y z (List.mem_cons_of_mem _ h')

theorem iterMinBy_mem {β : Type} (f : β → β → Ordering) (l : List β) (m : β)
    (h : iterMinBy f l = some m) : m ∈ l := by
  cases l with
  | nil => cases h
  | cons x xs =>
    unfold iterMinBy at h
    injection h with h
    exact h ▸ foldl_ordStep_mem f x xs

theorem iterMinBy_min {β : Type} (f : β → β → Ordering) (len : β → α)
    (hgt : ∀ a b, f a b = .gt → len b ≤ len a)
    (hng : ∀ a b, f a b ≠ .gt → len a ≤ len b) (l : List β) (m : β)
    (h : iterMinBy f l = some m) :
    ∀ y ∈ l, len m ≤ len y := by
  cases l with
  | nil => cases h
  | cons x xs =>
    unfold iterMinBy at h
    injection h with h
    exact h ▸ foldl_ordStep_le f len hgt hng x xs

/-- Claim C8: `WorldRefList::intersect` returns `None` exactly when no
object in the list reports an intersection point; otherwise the returned
record's point is an intersection point of minimal distance from the ray
origin (distance being `length`, i.e. `sqrt` of the squared norm) among all
intersected objects, and its normal, albedo, roughness and emission are all
sampled from that same closest object at that point. -/
theorem claim_C8_intersect_closest (sqrt : α → α) (objs : List (Object α))
    (r : Ray α) :
    (worldIntersect sqrt objs r = none ↔
      ∀ o ∈ objs, getIntersectionPoint sqrt o r = none) ∧
    (∀ table, worldIntersect sqrt objs r = some table →
      ∃ o p, o ∈ objs ∧ getIntersectionPoint sqrt o r = some p ∧
        table.point = p ∧
        table.normal = o.normalAt sqrt p ∧
        table.albedo = o.albedoAt p ∧
        table.roughness = o.roughnessAt p ∧
        table.emission = o.emissionAt p ∧
        ∀ o' p', o' ∈ objs → getIntersectionPoint sqrt o' r = some p' →
          (p - r.origin).length sqrt ≤ (p' - r.origin).length sqrt) := by
  classical
  set F : Object α → Option (Object α × Vec3 α) := fun e =>
    match getIntersectionPoint sqrt e r with
    | some point => some (e, point)
    | none => none with hF
  have hFchar : ∀ o pr, F o = some pr ↔
      getIntersectionPoint sqrt o r = some pr.2 ∧ pr.1 = o := by
    intro o pr
    rcases hgip : getIntersectionPoint sqrt o r with _ | p
    · simp [hF, hgip]
    · simp only [hF, hgip]
      constructor
      · intro h
        injection h with h
        subst h
        exact ⟨rfl, rfl⟩
      · rintro ⟨h1, h2⟩
        obtain ⟨o1, p1⟩ := pr
        simp only at h1 h2
        injection h1 with h1
        subst h1
        subst h2
        rfl
  have hmain : worldIntersect sqrt objs r =
      (if (objs.map F).all Option.isNone then none
       else
        (iterMinBy
            (fun a b =>
              cmp3 ((a.2 - r.origin).length sqrt)
                ((b.2 - r.origin).length sqrt))
            ((objs.map F).filterMap id)).map
          fun e =>
            { emission := e.1.emissionAt e.2
              point := e.2
              normal := e.1.normalAt sqrt e.2
              albedo := e.1.albedoAt e.2
              roughness := e.1.roughnessAt e.2 }) := by
    unfold worldIntersect
    rw [List.map_map]
    rfl
  have hall : ((objs.map F).all Option.isNone = true) ↔
      ∀ o ∈ objs, getIntersectionPoint sqrt o r = none := by
    rw [List.all_eq_true]
    constructor
    · intro h o ho
      have h2 := h (F o) (List.mem_map_of_mem F ho)
      rcases hgip : getIntersectionPoint sqrt o r with _ | p
      · rfl
      · simp only [hF, hgip] at h2
        simp at h2
    · intro h x hx
      rcases List.mem_map.mp hx with ⟨o, ho, rfl⟩
      simp only [hF, h o ho]
      rfl
  have hmem : ∀ pr, pr ∈ (objs.map F).filterMap id ↔
      pr.1 ∈ objs ∧ getIntersectionPoint sqrt pr.1 r = some pr.2 := by
    intro pr
    rw [List.mem_filterMap]
    constructor
    · rintro ⟨x, hx, hid⟩
      rcases List.mem_map.mp hx with ⟨o, ho, hFo⟩
      have : F o = some pr := by rw [hFo]; exact hid
      rcases (hFchar o pr).mp this with ⟨h1, h2⟩
      exact ⟨h2 ▸ ho, h2 ▸ h1⟩
    · rintro ⟨hmem1, hgip⟩
      refine ⟨some pr, List.mem_map.mpr ⟨pr.1, hmem1, ?_⟩, rfl⟩
      exact (hFchar pr.1 pr).mpr ⟨hgip, rfl⟩
  constructor
  · rw [hmain]
    split_ifs with hcond
    · simp only [true_iff]
      exact hall.mp hcond
    · constructor
      · intro h
        rcases hmin : iterMinBy
            (fun a b =>
              cmp3 ((a.2 - r.origin).length sqrt)
                ((b.2 - r.origin).length sqrt))
            ((objs.map F).filterMap id) with _ | m
        · -- iterMinBy none means the filterMap list is empty
          exfalso
          apply hcond
          rcases hnil : (objs.map F).filterMap id with _ | ⟨p0, l0⟩
          · rw [List.all_eq_true]
            intro x hx
            rcases x with _ | pr
            · rfl
            · exfalso
              have hmem2 : pr ∈ (objs.map F).filterMap id :=
                List.mem_filterMap.mpr ⟨some pr, hx, rfl⟩
              rw [hnil] at hmem2
              cases hmem2
          · rw [hnil] at hmin
            unfold iterMinBy at hmin
            cases hmin
        · rw [hmin] at h
          cases h
      · intro h
        exfalso
        exact hcond (hall.mpr h)
  · intro table htab
    rw [hmain] at htab
    split_ifs at htab with hcond
    rcases Option.map_eq_some'.mp htab with ⟨m, hmin, hmk⟩
    refine ⟨m.1, m.2, ?_, ?_, ?_, ?_, ?_, ?_, ?_, ?_⟩
    · exact ((hmem m).mp (iterMinBy_mem _ _ _ hmin)).1
    · exact ((hmem m).mp (iterMinBy_mem _ _ _ hmin)).2
    · exact hmk ▸ rfl
    · exact hmk ▸ rfl
    · exact hmk ▸ rfl
    · exact hmk ▸ rfl
    · exact hmk ▸ rfl
    · intro o' p' ho' hgip'
      have hmem' : (o', p') ∈ (objs.map F).filterMap id :=
        (hmem (o', p')).mpr ⟨ho', hgip'⟩
      have hres := iterMinBy_min _
        (fun e => Vec3.length sqrt (e.2 - r.origin))
        (fun a b hab =>
          (cmp3_eq_gt_iff.mp
            (show cmp3 (Vec3.length sqrt (a.2 - r.origin))
                (Vec3.length sqrt (b.2 - r.origin)) = .gt from hab)).le)
        (fun a b hab =>
          cmp3_ne_gt_le
            (show cmp3 (Vec3.length sqrt (a.2 - r.origin))
                (Vec3.length sqrt (b.2 - r.origin)) ≠ .gt from hab))
        ((objs.map F).filterMap id) m hmin
      exact hres (o', p') hmem'

/-! ## Claim C7 -/

/-- Claim C7: whenever the nearest primitive the ray hits (via the BVH
candidate set and the per-primitive filter) has positive emission,
`ray_color` returns `emission * albedo` for every remaining bounce budget
`depth >= 1` — the light is terminal, no scatter recursion contributes. -/
theorem claim_C7_emissive_hit_terminal (sqrt : α → α) (tree : BVHTree α)
    (r : Ray α) (depth : ℕ) (hdepth : 1 ≤ depth) (samples : List (Vec3 α))
    (table : IntersectionTable α)
    (hint : worldIntersect sqrt (tree.traverse r) r = some table)
    (hemit : 0 < table.emission) :
    rayColor sqrt tree r depth samples =
      Color.scale table.emission table.albedo := by
  cases depth with
  | zero => omega
  | succ d =>
    rw [rayColor, hint]
    exact if_pos hemit

/-- Witness for C7: a single emissive triangle inside a leaf box, hit
straight on; `ray_color` returns `5 * (1,0,0)` for depth 1. -/
theorem claim_C7_witness :
    ((1 : ℕ) ≤ 1 ∧
      worldIntersect (fun _ => (0 : ℚ))
          ((BVHTree.leaf ⟨⟨-1, -1, -2⟩, ⟨2, 2, 2⟩⟩
              [Object.triangle
                ⟨⟨0, 0, 0⟩, ⟨0, 1, 0⟩, ⟨1, 0, 0⟩, ⟨1, 0, 0⟩, 0, 5⟩]).traverse
            (Ray.mk' ⟨1 / 4, 1 / 4, 1⟩ ⟨0, 0, -1⟩))
          (Ray.mk' ⟨1 / 4, 1 / 4, 1⟩ ⟨0, 0, -1⟩) =
        some ⟨⟨1 / 4, 1 / 4, 0⟩, ⟨0, 0, 0⟩, ⟨1, 0, 0⟩, 0, 5⟩ ∧
      (0 : ℚ) < 5) ∧
    rayColor (fun _ => (0 : ℚ))
        (BVHTree.leaf ⟨⟨-1, -1, -2⟩, ⟨2, 2, 2⟩⟩
          [Object.triangle ⟨⟨0, 0, 0⟩, ⟨0, 1, 0⟩, ⟨1, 0, 0⟩, ⟨1, 0, 0⟩, 0, 5⟩])
        (Ray.mk' ⟨1 / 4, 1 / 4, 1⟩ ⟨0, 0, -1⟩) 1 [] =
      Color.scale 5 ⟨1, 0, 0⟩ := by
  have heval : worldIntersect (fun _ => (0 : ℚ))
      ((BVHTree.leaf ⟨⟨-1, -1, -2⟩, ⟨2, 2, 2⟩⟩
          [Object.triangle
            ⟨⟨0, 0, 0⟩, ⟨0, 1, 0⟩, ⟨1, 0, 0⟩, ⟨1, 0, 0⟩, 0, 5⟩]).traverse
        (Ray.mk' ⟨1 / 4, 1 / 4, 1⟩ ⟨0, 0, -1⟩))
      (Ray.mk' ⟨1 / 4, 1 / 4, 1⟩ ⟨0, 0, -1⟩) =
      some ⟨⟨1 / 4, 1 / 4, 0⟩, ⟨0, 0, 0⟩, ⟨1, 0, 0⟩, 0, 5⟩ := by
    norm_num [worldIntersect, getIntersectionPoint, getIntersectionPointChecked,
      Object.getRoots, Triangle.getRoots, Ray.mk', Ray.at, T_MIN, T_MAX,
      iterMinBy, Object.normalAt, Triangle.normalAt, Object.albedoAt,
      Object.roughnessAt, Object.emissionAt, Vec3.normalizeOrZero,
      Vec3.normalize, Vec3.length, Vec3.zero, List.filterMap_cons, cmp3,
      Option.map, Vec3.smul, BVHTree.traverse, Ray.intersectsAabb, fmin, fmax,
      AABB.idx]
  refine ⟨⟨le_refl 1, heval, by norm_num⟩, ?_⟩
  exact claim_C7_emissive_hit_terminal (fun _ => (0 : ℚ)) _ _ 1 (le_refl 1) []
    ⟨⟨1 / 4, 1 / 4, 0⟩, ⟨0, 0, 0⟩, ⟨1, 0, 0⟩, 0, 5⟩ heval (by norm_num)

/-- Witness for C8: a one-triangle scene where the intersection record is
computed concretely and the closest-object conclusion is instantiated. -/
theorem claim_C8_witness :
    worldIntersect (fun _ => (0 : ℚ))
        [Object.triangle ⟨⟨0, 0, 0⟩, ⟨0, 1, 0⟩, ⟨1, 0, 0⟩, ⟨1, 0, 0⟩, 0, 5⟩]
        (Ray.mk' ⟨1 / 4, 1 / 4, 1⟩ ⟨0, 0, -1⟩) =
      some ⟨⟨1 / 4, 1 / 4, 0⟩, ⟨0, 0, 0⟩, ⟨1, 0, 0⟩, 0, 5⟩ ∧
    (∃ o p,
      o ∈ [Object.triangle
          (⟨⟨0, 0, 0⟩, ⟨0, 1, 0⟩, ⟨1, 0, 0⟩, ⟨1, 0, 0⟩, 0, 5⟩ : Triangle ℚ)] ∧
      getIntersectionPoint (fun _ => (0 : ℚ)) o
          (Ray.mk' ⟨1 / 4, 1 / 4, 1⟩ ⟨0, 0, -1⟩) = some p ∧
      (⟨⟨1 / 4, 1 / 4, 0⟩, ⟨0, 0, 0⟩, ⟨1, 0, 0⟩, 0, 5⟩ :
          IntersectionTable ℚ).point = p ∧
      (⟨⟨1 / 4, 1 / 4, 0⟩, ⟨0, 0, 0⟩, ⟨1, 0, 0⟩, 0, 5⟩ :
          IntersectionTable ℚ).normal = o.normalAt (fun _ => (0 : ℚ)) p ∧
      (⟨⟨1 / 4, 1 / 4, 0⟩, ⟨0, 0, 0⟩, ⟨1, 0, 0⟩, 0, 5⟩ :
          IntersectionTable ℚ).albedo = o.albedoAt p ∧
      (⟨⟨1 / 4, 1 / 4, 0⟩, ⟨0, 0, 0⟩, ⟨1, 0, 0⟩, 0, 5⟩ :
          IntersectionTable ℚ).roughness = o.roughnessAt p ∧
      (⟨⟨1 / 4, 1 / 4, 0⟩, ⟨0, 0, 0⟩, ⟨1, 0, 0⟩, 0, 5⟩ :
          IntersectionTable ℚ).emission = o.emissionAt p ∧
      ∀ o' p',
        o' ∈ [Object.triangle
            (⟨⟨0, 0, 0⟩, ⟨0, 1, 0⟩, ⟨1, 0, 0⟩, ⟨1, 0, 0⟩, 0, 5⟩ : Triangle ℚ)] →
        getIntersectionPoint (fun _ => (0 : ℚ)) o'
            (Ray.mk' ⟨1 / 4, 1 / 4, 1⟩ ⟨0, 0, -1⟩) = some p' →
        Vec3.length (fun _ => (0 : ℚ))
            (p - (Ray.mk' (⟨1 / 4, 1 / 4, 1⟩ : Vec3 ℚ) ⟨0, 0, -1⟩).origin) ≤
          Vec3.length (fun _ => (0 : ℚ))
            (p' - (Ray.mk' (⟨1 / 4, 1 / 4, 1⟩ : Vec3 ℚ) ⟨0, 0, -1⟩).origin)) := by
  have heval : worldIntersect (fun _ => (0 : ℚ))
      [Object.triangle ⟨⟨0, 0, 0⟩, ⟨0, 1, 0⟩, ⟨1, 0, 0⟩, ⟨1, 0, 0⟩, 0, 5⟩]
      (Ray.mk' ⟨1 / 4, 1 / 4, 1⟩ ⟨0, 0, -1⟩) =
      some ⟨⟨1 / 4, 1 / 4, 0⟩, ⟨0, 0, 0⟩, ⟨1, 0, 0⟩, 0, 5⟩ := by
    norm_num [worldIntersect, getIntersectionPoint, getIntersectionPointChecked,
      Object.getRoots, Triangle.getRoots, Ray.mk', Ray.at, T_MIN, T_MAX,
      iterMinBy, Object.normalAt, Triangle.normalAt, Object.albedoAt,
      Object.roughnessAt, Object.emissionAt, Vec3.normalizeOrZero,
      Vec3.normalize, Vec3.length, Vec3.zero, List.filterMap_cons, cmp3,
      Option.map, Vec3.smul]
  exact ⟨heval,
    (claim_C8_intersect_closest (fun _ => (0 : ℚ))
        [Object.triangle ⟨⟨0, 0, 0⟩, ⟨0, 1, 0⟩, ⟨1, 0, 0⟩, ⟨1, 0, 0⟩, 0, 5⟩]
        (Ray.mk' ⟨1 / 4, 1 / 4, 1⟩ ⟨0, 0, -1⟩)).2
      ⟨⟨1 / 4, 1 / 4, 0⟩, ⟨0, 0, 0⟩, ⟨1, 0, 0⟩, 0, 5⟩ heval⟩


/-! ## Claim C1 -/

theorem AABB.subset_trans {b1 b2 b3 : AABB α} (h12 : b1.subset b2)
    (h23 : b2.subset b3) : b1.subset b3 := by
  simp only [AABB.subset] at *
  exact ⟨le_trans h23.1 h12.1, le_trans h12.2.1 h23.2.1,
    le_trans h23.2.2.1 h12.2.2.1, le_trans h12.2.2.2.1 h23.2.2.2.1,
    le_trans h23.2.2.2.2.1 h12.2.2.2.2.1,
    le_trans h12.2.2.2.2.2 h23.2.2.2.2.2⟩

theorem AABB.containsPt_mono {b1 b2 : AABB α} (hs : b1.subset b2)
    {p : Vec3 α} (hc : b1.containsPt p) : b2.containsPt p := by
  simp only [AABB.subset] at hs
  simp only [AABB.containsPt] at *
  exact ⟨le_trans hs.1 hc.1, le_trans hc.2.1 hs.2.1,
    le_trans hs.2.2.1 hc.2.2.1, le_trans hc.2.2.2.1 hs.2.2.2.1,
    le_trans hs.2.2.2.2.1 hc.2.2.2.2.1,
    le_trans hc.2.2.2.2.2 hs.2.2.2.2.2⟩

theorem axis_near_far_bound {bmin bmax o d t : α} (hd : d ≠ 0)
    (h1 : bmin ≤ o + t * d) (h2 : o + t * d ≤ bmax) :
    ((if d < 0 then bmax else bmin) - o) * (1 / d) ≤ t ∧
      t ≤ ((if d < 0 then bmin else bmax) - o) * (1 / d) := by
  rcases hd.lt_or_lt with hneg | hpos
  · rw [if_pos hneg, if_pos hneg]
    constructor
    · rw [mul_one_div, div_le_iff_of_neg hneg]
      linarith
    · rw [mul_one_div, le_div_iff_of_neg hneg]
      linarith
  · rw [if_neg (not_lt.mpr hpos.le), if_neg (not_lt.mpr hpos.le)]
    constructor
    · rw [mul_one_div, div_le_iff₀ hpos]
      linarith
    · rw [mul_one_div, le_div_iff₀ hpos]
      linarith

theorem intersectsAabb_of_contains (o0 d : Vec3 α) (bx : AABB α) (x : α)
    (hdx : d.x ≠ 0) (hdy : d.y ≠ 0) (hdz : d.z ≠ 0) (hx : 0 ≤ x)
    (hc : bx.containsPt ((Ray.mk' o0 d).at x)) :
    (Ray.mk' o0 d).intersectsAabb bx = true := by
  simp only [AABB.containsPt, Ray.at, Ray.mk', Vec3.add_x, Vec3.add_y,
    Vec3.add_z, Vec3.smul_x, Vec3.smul_y, Vec3.smul_z] at hc
  obtain ⟨h1, h2, h3, h4, h5, h6⟩ := hc
  have hax := @axis_near_far_bound α _ bx.min.x bx.max.x o0.x d.x x hdx h1 h2
  have hay := @axis_near_far_bound α _ bx.min.y bx.max.y o0.y d.y x hdy h3 h4
  have haz := @axis_near_far_bound α _ bx.min.z bx.max.z o0.z d.z x hdz h5 h6
  simp only [Ray.intersectsAabb, Ray.mk', aabbIdx_sign_near, aabbIdx_sign_far,
    apply_ite Vec3.x, apply_ite Vec3.y, apply_ite Vec3.z, fmin_eq_min,
    fmax_eq_max, decide_eq_true_eq]
  refine le_trans (max_le (max_le (max_le ?_ ?_) ?_) hx)
    (le_min (le_min ?_ ?_) ?_)
  · exact hax.1
  · exact hay.1
  · exact haz.1
  · exact hax.2
  · exact hay.2
  · exact haz.2

theorem convex3_lower {a b c u v : α} (hu : 0 ≤ u) (hv : 0 ≤ v)
    (huv : u + v ≤ 1) :
    min (min a c) b ≤ a + u * (b - a) + v * (c - a) := by
  have h1 : min (min a c) b ≤ a := le_trans (min_le_left _ _) (min_le_left _ _)
  have h2 : min (min a c) b ≤ b := min_le_right _ _
  have h3 : min (min a c) b ≤ c := le_trans (min_le_left _ _) (min_le_right _ _)
  nlinarith [mul_nonneg (show (0 : α) ≤ 1 - u - v by linarith)
      (show (0 : α) ≤ a - min (min a c) b by linarith),
    mul_nonneg hu (show (0 : α) ≤ b - min (min a c) b by linarith),
    mul_nonneg hv (show (0 : α) ≤ c - min (min a c) b by linarith)]

theorem convex3_upper {a b c u v : α} (hu : 0 ≤ u) (hv : 0 ≤ v)
    (huv : u + v ≤ 1) :
    a + u * (b - a) + v * (c - a) ≤ max (max a c) b := by
  have h1 : a ≤ max (max a c) b := le_trans (le_max_left _ _) (le_max_left _ _)
  have h2 : b ≤ max (max a c) b := le_max_right _ _
  have h3 : c ≤ max (max a c) b := le_trans (le_max_right _ _) (le_max_left _ _)
  nlinarith [mul_nonneg (show (0 : α) ≤ 1 - u - v by linarith)
      (show (0 : α) ≤ max (max a c) b - a by linarith),
    mul_nonneg hu (show (0 : α) ≤ max (max a c) b - b by linarith),
    mul_nonneg hv (show (0 : α) ≤ max (max a c) b - c by linarith)]

theorem triangle_point_in_aabb (t : Triangle α) {u v : α} (hu : 0 ≤ u)
    (hv : 0 ≤ v) (huv : u + v ≤ 1) :
    t.aabb.containsPt
      (t.a + Vec3.smul u (t.b - t.a) + Vec3.smul v (t.c - t.a)) := by
  simp only [Triangle.aabb, AABB.withBounds, AABB.containsPt,
    stdMinBy_cmp3_eq, stdMaxBy_cmp3_eq, Vec3.add_x, Vec3.add_y, Vec3.add_z,
    Vec3.smul_x, Vec3.smul_y, Vec3.smul_z, Vec3.sub_x, Vec3.sub_y, Vec3.sub_z]
  exact ⟨convex3_lower hu hv huv, convex3_upper hu hv huv,
    convex3_lower hu hv huv, convex3_upper hu hv huv,
    convex3_lower hu hv huv, convex3_upper hu hv huv⟩

theorem mt_identity (a b c o0 dvec : Vec3 α)
    (hdet : (b - a).dot (dvec.cross (c - a)) ≠ 0) :
    o0 + Vec3.smul ((c - a).dot ((o0 - a).cross (b - a)) *
        (1 / (b - a).dot (dvec.cross (c - a)))) dvec =
      a + Vec3.smul ((o0 - a).dot (dvec.cross (c - a)) *
            (1 / (b - a).dot (dvec.cross (c - a)))) (b - a) +
        Vec3.smul (dvec.dot ((o0 - a).cross (b - a)) *
            (1 / (b - a).dot (dvec.cross (c - a)))) (c - a) := by
  obtain ⟨ax, ay, az⟩ := a
  obtain ⟨bx, by', bz⟩ := b
  obtain ⟨cx, cy, cz⟩ := c
  obtain ⟨ox, oy, oz⟩ := o0
  obtain ⟨dx, dy, dz⟩ := dvec
  simp only [Vec3.mk_sub_mk, Vec3.cross_x, Vec3.cross_y, Vec3.cross_z,
    Vec3.dot_def, Vec3.smul_mk, Vec3.mk_add_mk] at hdet ⊢
  refine congrArg₂ (fun p q => Vec3.mk p.1 p.2 q) (congrArg₂ Prod.mk ?_ ?_) ?_
  · field_simp
    ring
  · field_simp
    ring
  · field_simp
    ring

theorem triangle_getRoots_ne_two {t : Triangle α} {r : Ray α} {x y : α} :
    t.getRoots r ≠ .two x y := by
  simp only [Triangle.getRoots]
  split_ifs <;> intro hcc <;> cases hcc

theorem triangle_getRoots_one_spec {t : Triangle α} {r : Ray α} {x : α}
    (h : t.getRoots r = .one x) :
    ∃ u v, 0 ≤ u ∧ u ≤ 1 ∧ 0 ≤ v ∧ u + v ≤ 1 ∧
      r.at x = t.a + Vec3.smul u (t.b - t.a) + Vec3.smul v (t.c - t.a) := by
  simp only [Triangle.getRoots] at h
  split_ifs at h with hc1 hc2 hc3 hc4
  all_goals try cases h
  push_neg at hc3
  have hdet : (t.b - t.a).dot (r.direction.cross (t.c - t.a)) ≠ 0 := by
    intro h0
    exact hc1 ⟨by rw [h0]; norm_num, by rw [h0]; norm_num⟩
  refine ⟨(r.origin - t.a).dot (r.direction.cross (t.c - t.a)) *
      (1 / (t.b - t.a).dot (r.direction.cross (t.c - t.a))),
    r.direction.dot ((r.origin - t.a).cross (t.b - t.a)) *
      (1 / (t.b - t.a).dot (r.direction.cross (t.c - t.a))),
    hc2.1, hc2.2, hc3.1, hc3.2, ?_⟩
  exact mt_identity t.a t.b t.c r.origin r.direction hdet

theorem findRootsQuadratic_one_root {sqrt : α → α} {a1 a0 x : α}
    (h : findRootsQuadratic sqrt 1 a1 a0 = .one x) :
    x * x + a1 * x + a0 = 0 := by
  simp only [findRootsQuadratic, one_ne_zero, if_false] at h
  split_ifs at h with hd1 hd2 hd3
  all_goals try cases h
  have ha0 : a1 * a1 - 4 * 1 * a0 = 0 := hd2
  field_simp
  nlinarith [ha0]

theorem findRootsQuadratic_two_roots {sqrt : α → α}
    (hsq : ∀ z, 0 ≤ z → 0 ≤ sqrt z ∧ sqrt z * sqrt z = z) {a1 a0 x y : α}
    (h : findRootsQuadratic sqrt 1 a1 a0 = .two x y) :
    x * x + a1 * x + a0 = 0 ∧ y * y + a1 * y + a0 = 0 := by
  simp only [findRootsQuadratic, one_ne_zero, if_false] at h
  split_ifs at h with hd1 hd2 hd3
  all_goals try cases h
  all_goals (
    push_neg at hd1
    have harg : a1 * a1 - 4 * 1 * a0 = a1 * a1 - 4 * a0 := by ring
    have hss : sqrt (a1 * a1 - 4 * a0) * sqrt (a1 * a1 - 4 * a0) =
        a1 * a1 - 4 * a0 := by
      rw [← harg]
      exact (hsq _ hd1).2
    constructor <;> (field_simp; nlinarith [hss]))

theorem sphere_hit_on_sphere {s : Sphere α} {o0 d : Vec3 α} {x : α}
    (hunit : Vec3.lengthSq d = 1)
    (hroot : x * x + (Vec3.smul 2 d).dot (o0 - s.center) * x +
        (Vec3.lengthSq (o0 - s.center) - s.radius * s.radius) = 0) :
    Vec3.lengthSq ((Ray.mk' o0 d).at x - s.center) =
      s.radius * s.radius := by
  simp only [Vec3.lengthSq_def, Vec3.sub_x, Vec3.sub_y, Vec3.sub_z,
    Vec3.add_x, Vec3.add_y, Vec3.add_z, Vec3.smul_x, Vec3.smul_y, Vec3.smul_z,
    Vec3.dot_def, Ray.at, Ray.mk'] at hunit hroot ⊢
  linear_combination hroot + (x * x) * hunit

theorem abs_bound_of_sq_le {dx rad : α} (hr : 0 ≤ rad)
    (h : dx * dx ≤ rad * rad) : -rad ≤ dx ∧ dx ≤ rad := by
  constructor <;> nlinarith [sq_nonneg (dx + rad), sq_nonneg (dx - rad)]

theorem sphere_point_in_aabb {s : Sphere α} (hrad : 0 ≤ s.radius)
    {q : Vec3 α}
    (hq : Vec3.lengthSq (q - s.center) = s.radius * s.radius) :
    s.aabb.containsPt q := by
  simp only [Vec3.lengthSq_def, Vec3.sub_x, Vec3.sub_y, Vec3.sub_z] at hq
  have hx2 : (q.x - s.center.x) * (q.x - s.center.x) ≤
      s.radius * s.radius := by
    nlinarith [sq_nonneg (q.y - s.center.y), sq_nonneg (q.z - s.center.z)]
  have hy2 : (q.y - s.center.y) * (q.y - s.center.y) ≤
      s.radius * s.radius := by
    nlinarith [sq_nonneg (q.x - s.center.x), sq_nonneg (q.z - s.center.z)]
  have hz2 : (q.z - s.center.z) * (q.z - s.center.z) ≤
      s.radius * s.radius := by
    nlinarith [sq_nonneg (q.x - s.center.x), sq_nonneg (q.y - s.center.y)]
  obtain ⟨hxa, hxb⟩ := abs_bound_of_sq_le hrad hx2
  obtain ⟨hya, hyb⟩ := abs_bound_of_sq_le hrad hy2
  obtain ⟨hza, hzb⟩ := abs_bound_of_sq_le hrad hz2
  simp only [Sphere.aabb, AABB.withBounds, AABB.containsPt, Vec3.sub_x,
    Vec3.sub_y, Vec3.sub_z, Vec3.add_x, Vec3.add_y, Vec3.add_z]
  exact ⟨by linarith, by linarith, by linarith, by linarith, by linarith,
    by linarith⟩

theorem getIntersectionPoint_spec {sqrt : α → α} {o : Object α} {r : Ray α}
    {q : Vec3 α} (h : getIntersectionPoint sqrt o r = some q) :
    ∃ x, T_MIN ≤ x ∧ x < T_MAX ∧ q = r.at x ∧
      (o.getRoots sqrt r = .one x ∨
        ∃ y, o.getRoots sqrt r = .two x y ∨ o.getRoots sqrt r = .two y x) := by
  rcases hg : o.getRoots sqrt r with _ | x | ⟨x, y⟩ | ⟨x, y, z⟩ | ⟨x, y, z, w⟩
  all_goals (
    unfold getIntersectionPoint getIntersectionPointChecked at h
    rw [hg] at h)
  · simp at h
  · simp only [Option.getD_some] at h
    split_ifs at h with hin
    · simp only [Option.map_some', Option.some.injEq] at h
      exact ⟨x, hin.1, hin.2, h.symm, Or.inl rfl⟩
    · simp at h
  · simp only [Option.getD_some] at h
    split_ifs at h
    all_goals
      first
        | (simp only [Option.map_some', Option.some.injEq] at h
           first
             | (exact ⟨x, by tauto, by tauto, h.symm, Or.inr ⟨y, Or.inl rfl⟩⟩)
             | (exact ⟨y, by tauto, by tauto, h.symm, Or.inr ⟨x, Or.inr rfl⟩⟩))
        | (exact absurd h (by simp))
  · simp at h
  · simp at h

theorem hit_point_in_aabb {sqrt : α → α}
    (hsq : ∀ z, 0 ≤ z → 0 ≤ sqrt z ∧ sqrt z * sqrt z = z)
    {o0 d : Vec3 α} (hunit : Vec3.lengthSq d = 1)
    {o : Object α} (hrad : o.radiusNonneg) {q : Vec3 α}
    (h : getIntersectionPoint sqrt o (Ray.mk' o0 d) = some q) :
    o.aabb.containsPt q ∧ ∃ x, 0 < x ∧ q = (Ray.mk' o0 d).at x := by
  obtain ⟨x, hx1, hx2, hqx, hroots⟩ := getIntersectionPoint_spec h
  have hxpos : 0 < x := lt_of_lt_of_le (by norm_num [T_MIN]) hx1
  refine ⟨?_, x, hxpos, hqx⟩
  cases o with
  | triangle t =>
    simp only [Object.getRoots] at hroots
    rcases hroots with hone | ⟨y, htwo | htwo⟩
    · obtain ⟨u, v, hu0, hu1, hv0, huv, hid⟩ := triangle_getRoots_one_spec hone
      rw [hqx, hid]
      exact triangle_point_in_aabb t hu0 hv0 huv
    · exact absurd htwo triangle_getRoots_ne_two
    · exact absurd htwo triangle_getRoots_ne_two
  | sphere s =>
    simp only [Object.getRoots, Sphere.getRoots, Ray.mk'] at hroots
    have hquad : x * x + (Vec3.smul 2 d).dot (o0 - s.center) * x +
        (Vec3.lengthSq (o0 - s.center) - s.radius * s.radius) = 0 := by
      rcases hroots with hone | ⟨y, htwo | htwo⟩
      · exact findRootsQuadratic_one_root hone
      · exact (findRootsQuadratic_two_roots hsq htwo).1
      · exact (findRootsQuadratic_two_roots hsq htwo).2
    have hons := sphere_hit_on_sphere hunit hquad
    rw [← hqx] at hons
    exact sphere_point_in_aabb hrad hons

theorem prim_aabb_subset_box {t : BVHTree α} (hwf : t.wf) {p : Object α}
    (hp : p ∈ t.prims) : p.aabb.subset t.box := by
  induction t with
  | leaf bx ps => exact hwf p hp
  | node bx l rt ihl ihr =>
    obtain ⟨hwl, hwr, hsl, hsr⟩ := hwf
    rcases List.mem_append.mp hp with h | h
    · exact AABB.subset_trans (ihl hwl h) hsl
    · exact AABB.subset_trans (ihr hwr h) hsr

theorem traverse_mem_of_contains {o0 d : Vec3 α} (hdx : d.x ≠ 0)
    (hdy : d.y ≠ 0) (hdz : d.z ≠ 0) {q : Vec3 α} {x : α} (hx : 0 < x)
    (hq : q = (Ray.mk' o0 d).at x) (t : BVHTree α) (hwf : t.wf)
    (p : Object α) (hp : p ∈ t.prims) (hcontain : p.aabb.containsPt q) :
    p ∈ t.traverse (Ray.mk' o0 d) := by
  induction t with
  | leaf bx ps =>
    have hsub : p.aabb.subset bx := hwf p hp
    unfold BVHTree.traverse
    rw [if_pos (intersectsAabb_of_contains o0 d bx x hdx hdy hdz hx.le
      (hq ▸ AABB.containsPt_mono hsub hcontain))]
    exact hp
  | node bx l rt ihl ihr =>
    obtain ⟨hwl, hwr, hsl, hsr⟩ := hwf
    have hsub : p.aabb.subset bx := by
      rcases List.mem_append.mp hp with h | h
      · exact AABB.subset_trans (prim_aabb_subset_box hwl h) hsl
      · exact AABB.subset_trans (prim_aabb_subset_box hwr h) hsr
    unfold BVHTree.traverse
    rw [if_pos (intersectsAabb_of_contains o0 d bx x hdx hdy hdz hx.le
      (hq ▸ AABB.containsPt_mono hsub hcontain))]
    rcases List.mem_append.mp hp with h | h
    · exact List.mem_append.mpr (Or.inl (ihl hwl h))
    · exact List.mem_append.mpr (Or.inr (ihr hwr h))

/-- Claim C1: for every scene tree satisfying the spec's BVH bounding
invariant (with nonnegative sphere radii) and every ray with unit,
axis-nondegenerate direction, the candidate set `BVH::traverse` returns is
a superset of the primitives the brute-force per-primitive test
(`get_intersection_point`) reports as hit: no false negatives.  (The
square root is any function with `sqrt x * sqrt x = x` on nonnegative
inputs, e.g. the real square root.) -/
theorem claim_C1_traverse_superset (sqrt : α → α)
    (hsq : ∀ z, 0 ≤ z → 0 ≤ sqrt z ∧ sqrt z * sqrt z = z)
    (o0 d : Vec3 α) (hdx : d.x ≠ 0) (hdy : d.y ≠ 0) (hdz : d.z ≠ 0)
    (hunit : Vec3.lengthSq d = 1) (t : BVHTree α) (hwf : t.wf)
    (hrad : ∀ p ∈ t.prims, p.radiusNonneg) (p : Object α)
    (hp : p ∈ t.prims) (q : Vec3 α)
    (hq : getIntersectionPoint sqrt p (Ray.mk' o0 d) = some q) :
    p ∈ t.traverse (Ray.mk' o0 d) := by
  obtain ⟨hcontain, x, hx, hqx⟩ := hit_point_in_aabb hsq hunit (hrad p hp) hq
  exact traverse_mem_of_contains hdx hdy hdz hx hqx t hwf p hp hcontain

/-- Witness for C1 over `ℝ` with the real square root: a single triangle
in a leaf box, hit by the unit-direction ray from `(0,0,1)` along
`(2/3, 2/3, -1/3)` at distance `3` (hit point `(2,2,0)`); the traversal
returns the triangle. -/
theorem claim_C1_witness :
    getIntersectionPoint Real.sqrt
        (Object.triangle ⟨⟨-10, -10, 0⟩, ⟨20, -10, 0⟩, ⟨-10, 20, 0⟩,
          ⟨1, 1, 1⟩, 0, 0⟩)
        (Ray.mk' ⟨0, 0, 1⟩ ⟨2 / 3, 2 / 3, -(1 / 3)⟩) = some ⟨2, 2, 0⟩ ∧
    Object.triangle
        (⟨⟨-10, -10, 0⟩, ⟨20, -10, 0⟩, ⟨-10, 20, 0⟩,
          ⟨1, 1, 1⟩, 0, 0⟩ : Triangle ℝ) ∈
      BVHTree.traverse (Ray.mk' ⟨0, 0, 1⟩ ⟨2 / 3, 2 / 3, -(1 / 3)⟩)
        (BVHTree.leaf (AABB.withBounds ⟨-20, -20, -1⟩ ⟨30, 30, 1⟩)
          [Object.triangle
            ⟨⟨-10, -10, 0⟩, ⟨20, -10, 0⟩, ⟨-10, 20, 0⟩, ⟨1, 1, 1⟩, 0, 0⟩]) := by
  have hq : getIntersectionPoint Real.sqrt
      (Object.triangle ⟨⟨-10, -10, 0⟩, ⟨20, -10, 0⟩, ⟨-10, 20, 0⟩,
        ⟨1, 1, 1⟩, 0, 0⟩)
      (Ray.mk' ⟨0, 0, 1⟩ ⟨2 / 3, 2 / 3, -(1 / 3)⟩) = some ⟨2, 2, 0⟩ := by
    norm_num [getIntersectionPoint, getIntersectionPointChecked,
      Object.getRoots, Triangle.getRoots, Ray.mk', Ray.at, T_MIN, T_MAX,
      Option.map]
  refine ⟨hq, ?_⟩
  exact claim_C1_traverse_superset Real.sqrt
    (fun z hz => ⟨Real.sqrt_nonneg z, Real.mul_self_sqrt hz⟩)
    ⟨0, 0, 1⟩ ⟨2 / 3, 2 / 3, -(1 / 3)⟩
    (show (2 : ℝ) / 3 ≠ 0 by norm_num)
    (show (2 : ℝ) / 3 ≠ 0 by norm_num)
    (show -((1 : ℝ) / 3) ≠ 0 by norm_num)
    (by norm_num)
    (BVHTree.leaf (AABB.withBounds ⟨-20, -20, -1⟩ ⟨30, 30, 1⟩)
      [Object.triangle
        ⟨⟨-10, -10, 0⟩, ⟨20, -10, 0⟩, ⟨-10, 20, 0⟩, ⟨1, 1, 1⟩, 0, 0⟩])
    (by
      norm_num [BVHTree.wf, Object.aabb, Triangle.aabb, AABB.withBounds,
        AABB.subset, stdMinBy_cmp3_eq, stdMaxBy_cmp3_eq, min_def, max_def])
    (by simp [BVHTree.prims, Object.radiusNonneg])
    _ (by simp [BVHTree.prims]) ⟨2, 2, 0⟩ hq

end RayTracer
